import Mathlib

/-!
Verification of the event-source resource/schema layer.

Shallow embedding of `zenml/zen_stores/schemas/event_source_schemas.py` and
`zenml/models/v2/core/event_source.py`:

* `JValue` models the Python values a configuration mapping can hold
  (`Dict[str, Any]` restricted to JSON-compatible shapes, with `jext` standing
  for the non-JSON-native values that `pydantic_encoder` knows how to render,
  e.g. `uuid.UUID`; JSON numbers are modelled as integers — floating point is
  out of scope for this development).
* `serVal` models `json.dumps(..., sort_keys=False, default=pydantic_encoder)`
  with its default settings (`ensure_ascii=True`, separators `", "` / `": "`).
* `dumpsPlain` models a plain `json.dumps(...)` without the `default=` fallback,
  which raises `TypeError` on any non-native value.
* `utf8encode` / `utf8decode` model `str.encode("utf-8")` / `bytes.decode()`.
* `b64encode` / `b64decode` model `base64.b64encode` / `base64.b64decode`
  (default `validate=False`: characters outside the alphabet are discarded,
  missing padding raises `binascii.Error`).
* `parseValue` and friends model `json.loads` (strict mode): whitespace
  skipping, string escapes including `\uXXXX` and surrogate pairs, and
  last-wins duplicate-key handling via `dict(pairs)`.
* `EventSourceSchema` with `from_request` / `to_model` / `update` models the
  SQLModel schema class; `EventSourceResponse` with `get_metadata` models the
  response-side hydration protocol.
-/

namespace ZenML

/-- The decode-failure family raised by the configuration decoding pipeline
`json.loads(base64.b64decode(blob).decode())`: `binascii.Error`,
`UnicodeDecodeError` and `json.JSONDecodeError` respectively.  These are the
concrete forms of the spec's `CorruptionError`. -/
inductive CorruptionError where
  | base64Error
  | unicodeError
  | jsonError
deriving DecidableEq, Repr

/-- Errors any of the modelled schema operations can raise. -/
inductive PyError where
  /-- A `CorruptionError`-class failure while decoding a stored blob. -/
  | corruption (e : CorruptionError)
  /-- `TypeError` from `json.dumps` on a value the plain encoder cannot
  serialize (the spec's `EncodingError`). -/
  | encoding
  /-- Pydantic validation failure (decoded configuration is not an object). -/
  | validationError
  /-- `AttributeError`: a relationship attribute does not hold a schema object
  (e.g. `.to_model()` called on a raw UUID written by a stray `setattr`). -/
  | attrError
  /-- Referenced id absent at fetch time. -/
  | notFound
deriving DecidableEq, Repr

/-- A Python value storable in an event-source `configuration` mapping.
`jext s` stands for a value that is not natively JSON-serializable but that
`pydantic_encoder` renders as the string `s` (e.g. `uuid.UUID`, `datetime`). -/
inductive JValue where
  | jnull
  | jbool (b : Bool)
  | jint (n : Int)
  | jstr (s : List Char)
  | jarr (elems : List JValue)
  | jobj (fields : List (List Char × JValue))
  | jext (s : List Char)
deriving Repr

/-- A configuration mapping: what pydantic delivers for `Dict[str, Any]`. -/
abbrev ConfigMap := List (List Char × JValue)

mutual
/-- `true` iff the value contains no `jext` node, i.e. it is made only of
JSON-compatible values (serializable without the `default=` fallback). -/
def noExt : JValue → Bool
  | .jarr es => noExtL es
  | .jobj fs => noExtF fs
  | .jext _ => false
  | _ => true
def noExtL : List JValue → Bool
  | [] => true
  | e :: es => noExt e && noExtL es
def noExtF : ConfigMap → Bool
  | [] => true
  | (_, v) :: fs => noExt v && noExtF fs
end

/-- `true` iff `k` does not occur among the keys of `fs`. -/
def keyAbsent (k : List Char) : ConfigMap → Bool
  | [] => true
  | (k', _) :: fs => !(k' == k) && keyAbsent k fs

/-- `true` iff the keys of `fs` are pairwise distinct. -/
def nodupKeys : ConfigMap → Bool
  | [] => true
  | (k, _) :: fs => keyAbsent k fs && nodupKeys fs

mutual
/-- `true` iff every object inside the value has pairwise-distinct keys — the
shapes of values that arise from actual Python dictionaries. -/
def wfKeys : JValue → Bool
  | .jarr es => wfKeysL es
  | .jobj fs => nodupKeys fs && wfKeysF fs
  | _ => true
def wfKeysL : List JValue → Bool
  | [] => true
  | e :: es => wfKeys e && wfKeysL es
def wfKeysF : ConfigMap → Bool
  | [] => true
  | (_, v) :: fs => wfKeys v && wfKeysF fs
end

/-! ### Serialization: `json.dumps` with `ensure_ascii=True` -/

/-- The lowercase hex digit for `d < 16`, as emitted by `\uXXXX` escapes. -/
def hexDigitChar (d : Nat) : Char :=
  match d with
  | 0 => '0' | 1 => '1' | 2 => '2' | 3 => '3' | 4 => '4'
  | 5 => '5' | 6 => '6' | 7 => '7' | 8 => '8' | 9 => '9'
  | 10 => 'a' | 11 => 'b' | 12 => 'c' | 13 => 'd' | 14 => 'e'
  | _ => 'f'

/-- Four lowercase hex digits, as in Python's `'\\u%04x'` formatting. -/
def hex4 (n : Nat) : List Char :=
  [hexDigitChar (n / 4096 % 16), hexDigitChar (n / 256 % 16),
   hexDigitChar (n / 16 % 16), hexDigitChar (n % 16)]

/-- The `\uXXXX` escape for code point `n`, as a surrogate pair when
`n ≥ 0x10000` (CPython's `py_encode_basestring_ascii`). -/
def uEscape (n : Nat) : List Char :=
  if n < 0x10000 then
    '\\' :: 'u' :: hex4 n
  else
    '\\' :: 'u' :: hex4 (0xD800 + (n - 0x10000) / 1024)
      ++ '\\' :: 'u' :: hex4 (0xDC00 + (n - 0x10000) % 1024)

/-- How `json.dumps` (with the default `ensure_ascii=True`) renders one string
character: two-character escapes for the special set, `\uXXXX` for everything
outside printable ASCII, the character itself otherwise. -/
def escapeChar (c : Char) : List Char :=
  if c = '\\' then ['\\', '\\']
  else if c = '"' then ['\\', '"']
  else if c = '\n' then ['\\', 'n']
  else if c = '\r' then ['\\', 'r']
  else if c = '\t' then ['\\', 't']
  else if c.toNat = 8 then ['\\', 'b']
  else if c.toNat = 12 then ['\\', 'f']
  else if c.toNat < 32 ∨ 126 < c.toNat then uEscape c.toNat
  else [c]

/-- The escaped body of a rendered string (without the enclosing quotes). -/
def escapeStr (s : List Char) : List Char := (s.map escapeChar).flatten

/-- A rendered JSON string: quote, escaped body, quote. -/
def quoteStr (s : List Char) : List Char := '"' :: escapeStr s ++ ['"']

/-- The decimal digit character for `d < 10`. -/
def digitChar (d : Nat) : Char := hexDigitChar (d % 10)

/-- Most-significant-first decimal digits of `n` (empty for `0`); the `fuel`
argument only bounds recursion and is immaterial once `n ≤ fuel`. -/
def natDecAux (fuel n : Nat) : List Char :=
  match fuel with
  | 0 => []
  | fuel + 1 => if n = 0 then [] else natDecAux fuel (n / 10) ++ [digitChar (n % 10)]

/-- Decimal rendering of a natural number, as Python's `repr`. -/
def natDec (n : Nat) : List Char :=
  if n = 0 then ['0'] else natDecAux n n

/-- Decimal rendering of an integer, as Python's `repr` (used by `json.dumps`
for `int` values). -/
def intDec : Int → List Char
  | .ofNat m => natDec m
  | .negSucc m => '-' :: natDec (m + 1)

mutual
/-- The text `json.dumps(v, sort_keys=False, default=pydantic_encoder)`
produces: `ensure_ascii` escaping, `", "` and `": "` separators (the defaults
when `indent=None`), insertion order preserved, and non-native values rendered
through the fallback encoder as their string form. -/
def serVal : JValue → List Char
  | .jnull => ['n', 'u', 'l', 'l']
  | .jbool true => ['t', 'r', 'u', 'e']
  | .jbool false => ['f', 'a', 'l', 's', 'e']
  | .jint n => intDec n
  | .jstr s => quoteStr s
  | .jext s => quoteStr s
  | .jarr [] => ['[', ']']
  | .jarr (e :: es) => '[' :: serVal e ++ serArrTail es
  | .jobj [] => ['{', '}']
  | .jobj (f :: fs) => '{' :: serPair f ++ serObjTail fs
/-- Continuation of an array rendering after one element: either the closing
bracket or a `", "` separator followed by the next element (so the whole array
is the `", "`-intercalation `json.dumps` emits). -/
def serArrTail : List JValue → List Char
  | [] => [']']
  | e :: es => ',' :: ' ' :: serVal e ++ serArrTail es
/-- One rendered `key: value` member, with the `": "` separator. -/
def serPair : List Char × JValue → List Char
  | (k, v) => quoteStr k ++ ':' :: ' ' :: serVal v
/-- Continuation of an object rendering after one member. -/
def serObjTail : ConfigMap → List Char
  | [] => ['}']
  | f :: fs => ',' :: ' ' :: serPair f ++ serObjTail fs
end

/-- `json.dumps(v)` with no `default=` fallback: same text as `serVal` on
JSON-native values, `TypeError` as soon as the traversal meets a non-native
one. -/
def dumpsPlain (v : JValue) : Except PyError (List Char) :=
  if noExt v then .ok (serVal v) else .error .encoding

/-! ### UTF-8: `str.encode("utf-8")` and `bytes.decode()` -/

/-- The UTF-8 bytes of one code point (1–4 bytes). -/
def utf8encodeChar (c : Char) : List Nat :=
  let n := c.toNat
  if n < 0x80 then [n]
  else if n < 0x800 then [0xC0 + n / 64, 0x80 + n % 64]
  else if n < 0x10000 then [0xE0 + n / 4096, 0x80 + n / 64 % 64, 0x80 + n % 64]
  else [0xF0 + n / 262144, 0x80 + n / 4096 % 64, 0x80 + n / 64 % 64, 0x80 + n % 64]

/-- `str.encode("utf-8")`. -/
def utf8encode (s : List Char) : List Nat := (s.map utf8encodeChar).flatten

/-- `true` iff `b` is a UTF-8 continuation byte `0b10xxxxxx`. -/
def isCont (b : Nat) : Bool := 0x80 ≤ b && b < 0xC0

/-- One multi-byte UTF-8 sequence with lead byte `b` (`0x80 ≤ b`), rejecting
truncated sequences, stray continuation bytes, overlong forms, surrogates and
out-of-range lead bytes — exactly the inputs CPython rejects. -/
def utf8multibyte (b : Nat) : List Nat → Except CorruptionError (Char × List Nat)
  | b2 :: rest =>
    if b < 0xC2 then .error .unicodeError
    else if b < 0xE0 then
      if isCont b2 then .ok (Char.ofNat ((b - 0xC0) * 64 + (b2 - 0x80)), rest)
      else .error .unicodeError
    else if b < 0xF0 then
      match rest with
      | b3 :: rest3 =>
        if isCont b2 && isCont b3
            && !(b = 0xE0 && b2 < 0xA0)           -- overlong three-byte form
            && !(b = 0xED && 0xA0 ≤ b2) then      -- encoded surrogate
          .ok (Char.ofNat ((b - 0xE0) * 4096 + (b2 - 0x80) * 64 + (b3 - 0x80)), rest3)
        else .error .unicodeError
      | [] => .error .unicodeError
    else if b < 0xF5 then
      match rest with
      | b3 :: b4 :: rest4 =>
        if isCont b2 && isCont b3 && isCont b4
            && !(b = 0xF0 && b2 < 0x90)           -- overlong four-byte form
            && !(b = 0xF4 && 0x90 ≤ b2) then      -- above U+10FFFF
          .ok (Char.ofNat ((b - 0xF0) * 262144 + (b2 - 0x80) * 4096
                + (b3 - 0x80) * 64 + (b4 - 0x80)), rest4)
        else .error .unicodeError
      | _ => .error .unicodeError
    else .error .unicodeError
  | [] => .error .unicodeError

/-- `bytes.decode()`: strict UTF-8 decoding.  `fuel` only bounds recursion;
one unit is spent per decoded character, so any fuel beyond the input length
is enough. -/
def utf8decodeAux : Nat → List Nat → Except CorruptionError (List Char)
  | 0, _ => .error .unicodeError
  | _ + 1, [] => .ok []
  | fuel + 1, b :: bs =>
    if b < 0x80 then
      match utf8decodeAux fuel bs with
      | .ok cs => .ok (Char.ofNat b :: cs)
      | .error e => .error e
    else
      match utf8multibyte b bs with
      | .ok (c, rest) =>
        match utf8decodeAux fuel rest with
        | .ok cs => .ok (c :: cs)
        | .error e => .error e
      | .error e => .error e

/-- `bytes.decode()` on a whole byte string. -/
def utf8decode (bs : List Nat) : Except CorruptionError (List Char) :=
  utf8decodeAux (bs.length + 1) bs

/-! ### Base64: `base64.b64encode` and `base64.b64decode` -/

/-- The base64 alphabet character (as a byte) for a 6-bit group. -/
def b64Char (n : Nat) : Nat :=
  if n < 26 then 65 + n                 -- A–Z
  else if n < 52 then 97 + (n - 26)     -- a–z
  else if n < 62 then 48 + (n - 52)     -- 0–9
  else if n = 62 then 43                -- +
  else 47                               -- /

/-- The 6-bit value of a base64 alphabet byte, `none` for anything else
(including the pad byte `=` 61). -/
def b64Val (c : Nat) : Option Nat :=
  if 65 ≤ c ∧ c ≤ 90 then some (c - 65)
  else if 97 ≤ c ∧ c ≤ 122 then some (c - 97 + 26)
  else if 48 ≤ c ∧ c ≤ 57 then some (c - 48 + 52)
  else if c = 43 then some 62
  else if c = 47 then some 63
  else none

/-- `base64.b64encode`: three bytes become four alphabet bytes, the final
partial group padded with `=` (61). -/
def b64encode : List Nat → List Nat
  | b1 :: b2 :: b3 :: rest =>
    b64Char (b1 / 4) :: b64Char (b1 % 4 * 16 + b2 / 16)
      :: b64Char (b2 % 16 * 4 + b3 / 64) :: b64Char (b3 % 64) :: b64encode rest
  | [b1, b2] => [b64Char (b1 / 4), b64Char (b1 % 4 * 16 + b2 / 16), b64Char (b2 % 16 * 4), 61]
  | [b1] => [b64Char (b1 / 4), b64Char (b1 % 4 * 16), 61, 61]
  | [] => []

/-- Decoding of four-byte quanta after alphabet filtering; `=` (61) is legal
only as the final one or two bytes, and a leftover of one to three bytes is
the `binascii.Error` ("incorrect padding") case. -/
def b64quanta : List Nat → Except CorruptionError (List Nat)
  | [] => .ok []
  | c1 :: c2 :: c3 :: c4 :: rest =>
    match b64Val c1, b64Val c2 with
    | some x1, some x2 =>
      if c3 = 61 then
        if c4 = 61 ∧ rest = [] then .ok [x1 * 4 + x2 / 16] else .error .base64Error
      else
        match b64Val c3 with
        | some x3 =>
          if c4 = 61 then
            if rest = [] then .ok [x1 * 4 + x2 / 16, x2 % 16 * 16 + x3 / 4]
            else .error .base64Error
          else
            match b64Val c4 with
            | some x4 =>
              match b64quanta rest with
              | .ok bs =>
                .ok ((x1 * 4 + x2 / 16) :: (x2 % 16 * 16 + x3 / 4) :: (x3 % 4 * 64 + x4) :: bs)
              | .error e => .error e
            | none => .error .base64Error
        | none => .error .base64Error
    | _, _ => .error .base64Error
  | _ => .error .base64Error

/-- `base64.b64decode` with the default `validate=False`: bytes outside the
alphabet (and pad) are discarded first, then complete quanta are required. -/
def b64decode (s : List Nat) : Except CorruptionError (List Nat) :=
  b64quanta (s.filter (fun c => (b64Val c).isSome || c == 61))

/-! ### Parsing: `json.loads` (strict mode)

Model restrictions, marked where they bite: JSON numbers are parsed as
integers only (a fraction or exponent, which Python would parse as a float, is
rejected — floats are outside this development), and lone surrogates in
`\uXXXX` escapes are rejected (Python's `str` can carry them; Lean's `Char`
cannot; the serializer never emits them). -/

/-- `true` for the four whitespace characters `json.loads` skips. -/
def isWsChar (c : Char) : Bool :=
  c == ' ' || c == '\t' || c == '\n' || c == '\r'

/-- Drop leading JSON whitespace. -/
def skipWs : List Char → List Char
  | c :: cs => if isWsChar c then skipWs cs else c :: cs
  | [] => []

/-- `true` for an ASCII decimal digit. -/
def isDigitChar (c : Char) : Bool := 48 ≤ c.toNat && c.toNat ≤ 57

/-- The value of a hex digit, upper or lower case (as `int(s, 16)` accepts). -/
def hexVal (c : Char) : Option Nat :=
  if 48 ≤ c.toNat ∧ c.toNat ≤ 57 then some (c.toNat - 48)
  else if 97 ≤ c.toNat ∧ c.toNat ≤ 102 then some (c.toNat - 87)
  else if 65 ≤ c.toNat ∧ c.toNat ≤ 70 then some (c.toNat - 55)
  else none

/-- The character a simple two-character escape denotes (`json.decoder`'s
BACKSLASH table). -/
def simpleEscape (e : Char) : Option Char :=
  if e = '"' then some '"'
  else if e = '\\' then some '\\'
  else if e = '/' then some '/'
  else if e = 'b' then some (Char.ofNat 8)
  else if e = 'f' then some (Char.ofNat 12)
  else if e = 'n' then some '\n'
  else if e = 'r' then some '\r'
  else if e = 't' then some '\t'
  else none

/-- The mandatory low-surrogate escape after a high surrogate `hi`, yielding
the combined supplementary-plane character. -/
def scanLowSurrogate (hi : Nat) : List Char → Except CorruptionError (Char × List Char)
  | '\\' :: 'u' :: c1 :: c2 :: c3 :: c4 :: r =>
    match hexVal c1, hexVal c2, hexVal c3, hexVal c4 with
    | some d1, some d2, some d3, some d4 =>
      have m := ((d1 * 16 + d2) * 16 + d3) * 16 + d4
      if 0xDC00 ≤ m ∧ m < 0xE000 then
        .ok (Char.ofNat (0x10000 + (hi - 0xD800) * 1024 + (m - 0xDC00)), r)
      else .error .jsonError            -- lone high surrogate (model restriction)
    | _, _, _, _ => .error .jsonError
  | _ => .error .jsonError

/-- The four hex digits of a `\uXXXX` escape, dispatching on surrogates. -/
def scanUnicodeEscape : List Char → Except CorruptionError (Char × List Char)
  | c1 :: c2 :: c3 :: c4 :: r =>
    match hexVal c1, hexVal c2, hexVal c3, hexVal c4 with
    | some d1, some d2, some d3, some d4 =>
      have n := ((d1 * 16 + d2) * 16 + d3) * 16 + d4
      if n < 0xD800 ∨ 0xE000 ≤ n then .ok (Char.ofNat n, r)
      else if n < 0xDC00 then scanLowSurrogate n r
      else .error .jsonError            -- lone low surrogate (model restriction)
    | _, _, _, _ => .error .jsonError
  | _ => .error .jsonError

/-- One escape sequence after the backslash, yielding the decoded character. -/
def scanEscape : List Char → Except CorruptionError (Char × List Char)
  | [] => .error .jsonError
  | 'u' :: r => scanUnicodeEscape r
  | e :: r =>
    match simpleEscape e with
    | some c2 => .ok (c2, r)
    | none => .error .jsonError

/-- String-body scanning after the opening quote (`json.decoder.scanstring`
with the default `strict=True`): plain characters pass through, raw control
characters are rejected, backslash escapes are decoded via `scanEscape`.
`fuel` only bounds recursion; one unit is spent per decoded character, so any
fuel beyond the input length is enough. -/
def parseStringBody : Nat → List Char → Except CorruptionError (List Char × List Char)
  | 0, _ => .error .jsonError
  | _ + 1, [] => .error .jsonError
  | fuel + 1, c :: r =>
    if c = '"' then .ok ([], r)
    else if c = '\\' then
      match scanEscape r with
      | .ok (c2, r2) =>
        match parseStringBody fuel r2 with
        | .ok (cs, rest) => .ok (c2 :: cs, rest)
        | .error e => .error e
      | .error e => .error e
    else if c.toNat < 32 then .error .jsonError   -- strict: raw control character
    else
      match parseStringBody fuel r with
      | .ok (cs, rest) => .ok (c :: cs, rest)
      | .error e => .error e

/-- Digits-so-far folding, most significant first. -/
def decDigitsVal (ds : List Char) : Nat :=
  ds.foldl (fun a c => a * 10 + (c.toNat - 48)) 0

/-- The integer part of a JSON number (leading zeros excluded, as in the JSON
grammar Python's scanner follows: a leading `0` is a complete integer part). -/
def parseNatNum : List Char → Except CorruptionError (Nat × List Char)
  | [] => .error .jsonError
  | c :: r =>
    if c = '0' then .ok (0, r)
    else if isDigitChar c then
      .ok (decDigitsVal ((c :: r).takeWhile isDigitChar), (c :: r).dropWhile isDigitChar)
    else .error .jsonError

/-- A JSON number, integers only (see the model restrictions above). -/
def parseNumber (s : List Char) : Except CorruptionError (JValue × List Char) :=
  match s with
  | '-' :: r =>
    match parseNatNum r with
    | .ok (n, rest) => .ok (.jint (-(n : Int)), rest)
    | .error e => .error e
  | _ =>
    match parseNatNum s with
    | .ok (n, rest) => .ok (.jint (n : Int), rest)
    | .error e => .error e

/-- Python `dict` insertion: an existing key keeps its position and takes the
new value, a new key is appended. -/
def dictInsert (acc : ConfigMap) (k : List Char) (v : JValue) : ConfigMap :=
  match acc with
  | [] => [(k, v)]
  | (k', v') :: rest => if k' == k then (k', v) :: rest else (k', v') :: dictInsert rest k v

/-- `dict(pairs)`: fold the scanned members into a dict, last value winning. -/
def dictOfPairs (fs : ConfigMap) : ConfigMap :=
  fs.foldl (fun acc kv => dictInsert acc kv.1 kv.2) []

mutual
/-- One JSON value at the current position (no leading whitespace), as
`json.scanner.py_make_scanner`'s `scan_once`: dispatch on the first character,
falling through to the number scanner.  `fuel` only bounds recursion; the
round-trip lemmas show any fuel beyond the input length is enough. -/
def parseValue : Nat → List Char → Except CorruptionError (JValue × List Char)
  | 0, _ => .error .jsonError
  | fuel + 1, s =>
    match s with
    | [] => .error .jsonError
    | c :: r =>
      if c = '"' then
        match parseStringBody (r.length + 1) r with
        | .ok (cs, rest) => .ok (.jstr cs, rest)
        | .error e => .error e
      else if c = '{' then
        have s1 := skipWs r
        if s1.head? = some '}' then .ok (.jobj [], s1.tail)
        else
          match parsePair fuel s1 with
          | .ok (kv, r1) =>
            match parseObjTail fuel r1 with
            | .ok (kvs, r2) => .ok (.jobj (dictOfPairs (kv :: kvs)), r2)
            | .error e => .error e
          | .error e => .error e
      else if c = '[' then
        have s1 := skipWs r
        if s1.head? = some ']' then .ok (.jarr [], s1.tail)
        else
          match parseValue fuel s1 with
          | .ok (v, r1) =>
            match parseArrTail fuel r1 with
            | .ok (vs, r2) => .ok (.jarr (v :: vs), r2)
            | .error e => .error e
          | .error e => .error e
      else if c = 'n' then
        match r with
        | 'u' :: 'l' :: 'l' :: rest => .ok (.jnull, rest)
        | _ => .error .jsonError
      else if c = 't' then
        match r with
        | 'r' :: 'u' :: 'e' :: rest => .ok (.jbool true, rest)
        | _ => .error .jsonError
      else if c = 'f' then
        match r with
        | 'a' :: 'l' :: 's' :: 'e' :: rest => .ok (.jbool false, rest)
        | _ => .error .jsonError
      else parseNumber (c :: r)
/-- After one array element: whitespace, then `]` ends the array or `,` plus
whitespace precedes the next element. -/
def parseArrTail : Nat → List Char → Except CorruptionError (List JValue × List Char)
  | 0, _ => .error .jsonError
  | fuel + 1, s =>
    have s1 := skipWs s
    if s1.head? = some ']' then .ok ([], s1.tail)
    else if s1.head? = some ',' then
      match parseValue fuel (skipWs s1.tail) with
      | .ok (v, r1) =>
        match parseArrTail fuel r1 with
        | .ok (vs, r2) => .ok (v :: vs, r2)
        | .error e => .error e
      | .error e => .error e
    else .error .jsonError
/-- One `"key": value` member at the current position. -/
def parsePair : Nat → List Char → Except CorruptionError ((List Char × JValue) × List Char)
  | 0, _ => .error .jsonError
  | fuel + 1, s =>
    match s with
    | '"' :: r =>
      match parseStringBody (r.length + 1) r with
      | .ok (k, r1) =>
        have s2 := skipWs r1
        if s2.head? = some ':' then
          match parseValue fuel (skipWs s2.tail) with
          | .ok (v, r2) => .ok ((k, v), r2)
          | .error e => .error e
        else .error .jsonError
      | .error e => .error e
    | _ => .error .jsonError
/-- After one object member: whitespace, then `}` ends the object or `,` plus
whitespace precedes the next member. -/
def parseObjTail : Nat → List Char → Except CorruptionError (ConfigMap × List Char)
  | 0, _ => .error .jsonError
  | fuel + 1, s =>
    have s1 := skipWs s
    if s1.head? = some '}' then .ok ([], s1.tail)
    else if s1.head? = some ',' then
      match parsePair fuel (skipWs s1.tail) with
      | .ok (kv, r1) =>
        match parseObjTail fuel r1 with
        | .ok (kvs, r2) => .ok (kv :: kvs, r2)
        | .error e => .error e
      | .error e => .error e
    else .error .jsonError
end

/-- `json.loads`: skip surrounding whitespace, scan one value, require the end
of input (anything left is the "Extra data" error). -/
def jsonLoads (s : List Char) : Except CorruptionError JValue :=
  match parseValue (s.length + 1) (skipWs s) with
  | .ok (v, rest) => if (skipWs rest).isEmpty then .ok v else .error .jsonError
  | .error e => .error e

/-- The configuration decoding step of `to_model`:
`json.loads(base64.b64decode(blob).decode())`. -/
def decodeConfig (blob : List Nat) : Except CorruptionError JValue :=
  match b64decode blob with
  | .error e => .error e
  | .ok raw =>
    match utf8decode raw with
    | .error e => .error e
    | .ok txt => jsonLoads txt

/-- The configuration encoding step of `from_request`:
`base64.b64encode(json.dumps(cfg, sort_keys=False, default=pydantic_encoder).encode("utf-8"))`. -/
def encodeConfigCreate (cfg : ConfigMap) : List Nat :=
  b64encode (utf8encode (serVal (.jobj cfg)))

/-! ### Round trip, step 1: strings -/

theorem hexVal_hexDigitChar (d : Nat) (h : d < 16) :
    hexVal (hexDigitChar d) = some d := by
  interval_cases d <;> decide

/-- A surrogate-pair escape scans to the combined supplementary character.
Stated over abstract `hi`/`lo` so the instantiated terms stay small. -/
theorem parseStringBody_surrogatePair (fuel hi lo : Nat) (t : List Char)
    (hhi1 : 0xD800 ≤ hi) (hhi2 : hi < 0xDC00) (hlo1 : 0xDC00 ≤ lo) (hlo2 : lo < 0xE000) :
    parseStringBody (fuel + 1)
        (('\\' :: 'u' :: hex4 hi) ++ ('\\' :: 'u' :: hex4 lo) ++ t) =
      match parseStringBody fuel t with
      | .ok (cs, r) => .ok (Char.ofNat (0x10000 + (hi - 0xD800) * 1024 + (lo - 0xDC00)) :: cs, r)
      | .error e => .error e := by
  have hmod : ∀ k : Nat, k % 16 < 16 := fun k => Nat.mod_lt _ (by omega)
  have hbs : ∀ r : List Char, parseStringBody (fuel + 1) ('\\' :: r) =
      match scanEscape r with
      | .ok (c2, r2) =>
        match parseStringBody fuel r2 with
        | .ok (cs, rest) => .ok (c2 :: cs, rest)
        | .error e => .error e
      | .error e => .error e := fun _ => rfl
  rw [List.cons_append, List.cons_append, hbs]
  show (match scanUnicodeEscape (hex4 hi ++ ('\\' :: 'u' :: hex4 lo) ++ t) with
    | Except.ok (c2, r2) =>
      match parseStringBody fuel r2 with
      | Except.ok (cs, rest) => Except.ok (c2 :: cs, rest)
      | Except.error e => Except.error e
    | Except.error e => Except.error e) = _
  simp only [hex4, List.cons_append, List.nil_append, List.append_assoc,
    scanUnicodeEscape, hexVal_hexDigitChar _ (hmod _)]
  have harith1 : ((hi / 4096 % 16 * 16 + hi / 256 % 16) * 16 + hi / 16 % 16) * 16 + hi % 16
      = hi := by omega
  rw [harith1, if_neg (by omega : ¬(hi < 0xD800 ∨ 0xE000 ≤ hi)), if_pos hhi2]
  show (match scanLowSurrogate hi ('\\' :: 'u' :: hex4 lo ++ t) with
    | Except.ok (c2, r2) =>
      match parseStringBody fuel r2 with
      | Except.ok (cs, rest) => Except.ok (c2 :: cs, rest)
      | Except.error e => Except.error e
    | Except.error e => Except.error e) = _
  simp only [hex4, List.cons_append, List.nil_append, scanLowSurrogate,
    hexVal_hexDigitChar _ (hmod _)]
  have harith2 : ((lo / 4096 % 16 * 16 + lo / 256 % 16) * 16 + lo / 16 % 16) * 16 + lo % 16
      = lo := by omega
  rw [harith2, if_pos (And.intro hlo1 hlo2)]

/-- One scanned escape step undoes `escapeChar` on the escaped character and
leaves the rest of the input. -/
theorem parseStringBody_escapeChar (c : Char) (fuel : Nat) (t : List Char) :
    parseStringBody (fuel + 1) (escapeChar c ++ t) =
      match parseStringBody fuel t with
      | .ok (cs, r) => .ok (c :: cs, r)
      | .error e => .error e := by
  have hmod : ∀ k : Nat, k % 16 < 16 := fun k => Nat.mod_lt _ (by omega)
  have hbs : ∀ r : List Char, parseStringBody (fuel + 1) ('\\' :: r) =
      match scanEscape r with
      | .ok (c2, r2) =>
        match parseStringBody fuel r2 with
        | .ok (cs, rest) => .ok (c2 :: cs, rest)
        | .error e => .error e
      | .error e => .error e := fun _ => rfl
  unfold escapeChar
  split_ifs with h1 h2 h3 h4 h5 h6 h7 h8
  · subst h1; rfl
  · subst h2; rfl
  · subst h3; rfl
  · subst h4; rfl
  · subst h5; rfl
  · have hc : c = Char.ofNat 8 := by rw [← h6, Char.ofNat_toNat]
    subst hc; rfl
  · have hc : c = Char.ofNat 12 := by rw [← h7, Char.ofNat_toNat]
    subst hc; rfl
  · -- the `\uXXXX` escapes
    have hval : c.toNat < 0xD800 ∨ (0xDFFF < c.toNat ∧ c.toNat < 0x110000) := c.valid
    unfold uEscape
    by_cases hbmp : c.toNat < 0x10000
    · rw [if_pos hbmp, List.cons_append, List.cons_append, hbs]
      show (match scanUnicodeEscape (hex4 c.toNat ++ t) with
        | Except.ok (c2, r2) =>
          match parseStringBody fuel r2 with
          | Except.ok (cs, rest) => Except.ok (c2 :: cs, rest)
          | Except.error e => Except.error e
        | Except.error e => Except.error e) = _
      simp only [hex4, List.cons_append, List.nil_append, scanUnicodeEscape,
        hexVal_hexDigitChar _ (hmod _)]
      have harith : ((c.toNat / 4096 % 16 * 16 + c.toNat / 256 % 16) * 16
          + c.toNat / 16 % 16) * 16 + c.toNat % 16 = c.toNat := by omega
      have hsur : c.toNat < 0xD800 ∨ 0xE000 ≤ c.toNat := by
        rcases hval with h | h
        · exact Or.inl h
        · exact Or.inr (by omega)
      rw [harith, if_pos hsur, Char.ofNat_toNat]
    · rw [if_neg hbmp]
      have hlt : c.toNat < 0x110000 := by rcases hval with h | h <;> omega
      have hq : (c.toNat - 0x10000) / 1024 < 1024 := by omega
      rw [show ('\\' :: 'u' :: hex4 (0xD800 + (c.toNat - 0x10000) / 1024)
            ++ '\\' :: 'u' :: hex4 (0xDC00 + (c.toNat - 0x10000) % 1024)) ++ t
          = ('\\' :: 'u' :: hex4 (0xD800 + (c.toNat - 0x10000) / 1024))
            ++ ('\\' :: 'u' :: hex4 (0xDC00 + (c.toNat - 0x10000) % 1024)) ++ t from by
        simp [List.append_assoc]]
      rw [parseStringBody_surrogatePair fuel _ _ t (by omega) (by omega) (by omega) (by omega)]
      have hrec : 0x10000 + (0xD800 + (c.toNat - 0x10000) / 1024 - 0xD800) * 1024
          + (0xDC00 + (c.toNat - 0x10000) % 1024 - 0xDC00) = c.toNat := by omega
      rw [hrec, Char.ofNat_toNat]
  · -- plain printable ASCII
    push_neg at h8
    rw [List.cons_append, List.nil_append, parseStringBody.eq_def]
    simp only [if_neg h1, if_neg h2, if_neg (Nat.not_lt.mpr h8.1)]

/-- Scanning a whole escaped body stops exactly at the closing quote. -/
theorem parseStringBody_escapeStr (s : List Char) : ∀ (fuel : Nat) (t : List Char),
    s.length < fuel →
    parseStringBody fuel (escapeStr s ++ '"' :: t) = .ok (s, t) := by
  induction s with
  | nil =>
    intro fuel t hf
    match fuel, hf with
    | fuel + 1, _ => rfl
  | cons c s ih =>
    intro fuel t hf
    match fuel, hf with
    | fuel + 1, hf =>
      show parseStringBody (fuel + 1) ((escapeChar c ++ escapeStr s) ++ '"' :: t) = _
      rw [List.append_assoc, parseStringBody_escapeChar,
        ih fuel t (by simpa using Nat.lt_of_succ_lt_succ hf)]

/-- Each character escapes to at least one character, so an escaped body is at
least as long as the source string. -/
theorem length_le_escapeStr (s : List Char) : s.length ≤ (escapeStr s).length := by
  induction s with
  | nil => simp [escapeStr]
  | cons c s ih =>
    have hne : escapeChar c ≠ [] := by
      unfold escapeChar
      split_ifs <;> simp [uEscape]
      split_ifs <;> simp
    show _ ≤ (escapeChar c ++ escapeStr s).length
    rw [List.length_append]
    have h1 : 1 ≤ (escapeChar c).length := by
      cases hc : escapeChar c with
      | nil => exact absurd hc hne
      | cons a l => simp
    simp only [List.length_cons]
    omega

/-! ### Round trip, step 2: numbers -/

/-- `true` when what follows a rendered value is what the serializer can put
there: nothing, or a separator/closer — in particular never a digit, so number
scanning stops exactly at the boundary. -/
def isValueEnd : List Char → Bool
  | [] => true
  | c :: _ => c = ',' || c = ']' || c = '}'

theorem digitChar_toNat (d : Nat) (h : d < 10) : (digitChar d).toNat = 48 + d := by
  interval_cases d <;> decide

theorem isDigitChar_digitChar (d : Nat) (h : d < 10) : isDigitChar (digitChar d) = true := by
  simp [isDigitChar, digitChar_toNat d h]
  omega

theorem natDecAux_zero (fuel : Nat) : natDecAux fuel 0 = [] := by
  cases fuel <;> rfl

/-- Every rendered digit character is a digit. -/
theorem natDecAux_digits (fuel : Nat) : ∀ n, ∀ c ∈ natDecAux fuel n, isDigitChar c = true := by
  induction fuel with
  | zero => intro n c hc; simp [natDecAux] at hc
  | succ fuel ih =>
    intro n c hc
    by_cases hn : n = 0
    · subst hn; rw [natDecAux_zero] at hc; simp at hc
    · rw [natDecAux, if_neg hn] at hc
      rcases List.mem_append.mp hc with h | h
      · exact ih _ c h
      · rcases List.mem_singleton.mp h with rfl
        exact isDigitChar_digitChar _ (Nat.mod_lt _ (by omega))

/-- The rendered digits of a positive number start with a nonzero digit. -/
theorem natDecAux_head (fuel : Nat) : ∀ n, n ≠ 0 → n ≤ fuel →
    ∃ d t, natDecAux fuel n = digitChar d :: t ∧ d < 10 ∧ d ≠ 0 := by
  induction fuel with
  | zero => intro n h0 hle; omega
  | succ fuel ih =>
    intro n h0 hle
    rw [natDecAux, if_neg h0]
    by_cases hsmall : n < 10
    · rw [Nat.div_eq_of_lt hsmall, natDecAux_zero]
      exact ⟨n % 10, [], by simp, Nat.mod_lt _ (by omega), by omega⟩
    · have h10 : n / 10 ≠ 0 := by omega
      have hle10 : n / 10 ≤ fuel := by omega
      obtain ⟨d, t, heq, hd, hdz⟩ := ih (n / 10) h10 hle10
      exact ⟨d, t ++ [digitChar (n % 10)], by rw [heq]; simp, hd, hdz⟩

/-- Folding the rendered digits back recovers the number. -/
theorem natDecAux_foldl (fuel : Nat) : ∀ n, n ≤ fuel → ∀ acc : Nat,
    List.foldl (fun a c => a * 10 + (c.toNat - 48)) acc (natDecAux fuel n)
      = acc * 10 ^ (natDecAux fuel n).length + n := by
  induction fuel with
  | zero => intro n hle acc; interval_cases n; simp [natDecAux]
  | succ fuel ih =>
    intro n hle acc
    by_cases hn : n = 0
    · subst hn; rw [natDecAux_zero]; simp
    · rw [natDecAux, if_neg hn, List.foldl_append, List.length_append]
      rw [ih (n / 10) (by omega) acc]
      simp only [List.foldl_cons, List.foldl_nil, List.length_cons, List.length_nil]
      rw [digitChar_toNat _ (Nat.mod_lt _ (by omega))]
      have hpow : 10 ^ ((natDecAux fuel (n / 10)).length + (0 + 1))
          = 10 ^ (natDecAux fuel (n / 10)).length * 10 := by
        rw [Nat.zero_add, pow_succ]
      rw [hpow]
      have := Nat.div_add_mod n 10
      set L := 10 ^ (natDecAux fuel (n / 10)).length
      ring_nf
      omega

/-- `takeWhile`/`dropWhile` split an all-satisfying prefix off exactly. -/
theorem takeWhile_dropWhile_append (p : Char → Bool) (xs ys : List Char)
    (hx : ∀ c ∈ xs, p c = true) (hy : ys.takeWhile p = []) :
    (xs ++ ys).takeWhile p = xs ∧ (xs ++ ys).dropWhile p = ys := by
  induction xs with
  | nil =>
    simp only [List.nil_append]
    refine ⟨hy, ?_⟩
    cases ys with
    | nil => rfl
    | cons c t =>
      rw [List.takeWhile_cons] at hy
      cases hp : p c with
      | false => simp [List.dropWhile_cons, hp]
      | true => rw [hp] at hy; simp at hy
  | cons c t ih =>
    have hc : p c = true := hx c (List.mem_cons_self c t)
    have ht : ∀ a ∈ t, p a = true := fun a ha => hx a (List.mem_cons_of_mem c ha)
    obtain ⟨h1, h2⟩ := ih ht
    constructor
    · rw [List.cons_append, List.takeWhile_cons, hc]; simp [h1]
    · rw [List.cons_append, List.dropWhile_cons, hc]; simpa using h2

theorem valueEnd_takeWhile_digits (rest : List Char) (h : isValueEnd rest = true) :
    rest.takeWhile isDigitChar = [] := by
  cases rest with
  | nil => rfl
  | cons c t =>
    rw [List.takeWhile_cons]
    have hc : isDigitChar c = false := by
      rcases (by simpa [isValueEnd] using h : (c = ',' ∨ c = ']') ∨ c = '}') with (rfl | rfl) | rfl
        <;> decide
    simp [hc]

/-- The number scanner inverts the decimal rendering of a natural number
whenever what follows cannot extend the digit run. -/
theorem parseNatNum_natDec (n : Nat) (rest : List Char) (hr : isValueEnd rest = true) :
    parseNatNum (natDec n ++ rest) = .ok (n, rest) := by
  by_cases h0 : n = 0
  · subst h0; rfl
  · obtain ⟨d, t, heq, hd, hdz⟩ := natDecAux_head n n h0 (Nat.le_refl n)
    have hdigs : ∀ c ∈ natDecAux n n, isDigitChar c = true := natDecAux_digits n n
    obtain ⟨htake, hdrop⟩ := takeWhile_dropWhile_append isDigitChar (natDecAux n n) rest
      hdigs (valueEnd_takeWhile_digits rest hr)
    have hfold := natDecAux_foldl n n (Nat.le_refl n) 0
    rw [natDec, if_neg h0, heq, List.cons_append, parseNatNum]
    have hdc : digitChar d ≠ '0' := by
      intro hcontra
      have := digitChar_toNat d hd
      rw [hcontra] at this
      simp at this
      omega
    rw [if_neg hdc, if_pos (isDigitChar_digitChar d hd)]
    rw [← List.cons_append, ← heq, htake, hdrop]
    have hval : decDigitsVal (natDecAux n n) = n := by
      rw [decDigitsVal, hfold]; simp
    rw [hval]

/-- The number parser inverts `repr`-style integer rendering. -/
theorem parseNumber_intDec (m : Int) (rest : List Char) (hr : isValueEnd rest = true) :
    parseNumber (intDec m ++ rest) = .ok (.jint m, rest) := by
  cases m with
  | ofNat n =>
    show parseNumber (natDec n ++ rest) = _
    have hshape : ∃ d tl, natDec n = digitChar d :: tl ∧ d < 10 := by
      by_cases h0 : n = 0
      · exact ⟨0, [], by rw [h0]; rfl, by omega⟩
      · obtain ⟨d, t, heq, hd, _⟩ := natDecAux_head n n h0 (Nat.le_refl n)
        exact ⟨d, t, by rw [natDec, if_neg h0, heq], hd⟩
    obtain ⟨d, tl, heq, hd⟩ := hshape
    have hne : digitChar d ≠ '-' := by
      intro hcontra
      have := digitChar_toNat d hd
      rw [hcontra] at this
      simp at this
      omega
    rw [heq, List.cons_append, parseNumber.eq_def]
    split
    · rename_i r heqq
      exact absurd (List.cons.inj heqq).1 hne
    · rw [← List.cons_append, ← heq, parseNatNum_natDec n rest hr]
      rfl
  | negSucc k =>
    show parseNumber ('-' :: (natDec (k + 1) ++ rest)) = _
    rw [parseNumber.eq_def]
    split
    · rename_i r heqq
      rw [← (List.cons.inj heqq).2, parseNatNum_natDec (k + 1) rest hr]
      simp [Int.negSucc_eq]
    · rename_i hno
      exact absurd rfl (hno (natDec (k + 1) ++ rest))

/-! ### Round trip, step 3: the base64 and UTF-8 envelope -/

theorem b64Val_b64Char (x : Nat) (h : x < 64) : b64Val (b64Char x) = some x := by
  unfold b64Char b64Val
  split_ifs <;> first
    | (simp only [Option.some.injEq]; omega)
    | omega

theorem b64Char_ne_pad (x : Nat) (h : x < 64) : b64Char x ≠ 61 := by
  unfold b64Char
  split_ifs <;> omega

/-- Every byte the encoder emits survives the decoder's alphabet filter. -/
theorem b64encode_mem : ∀ bs : List Nat, (∀ b ∈ bs, b < 256) →
    ∀ c ∈ b64encode bs, ((b64Val c).isSome || c == 61) = true
  | [], _, c, hc => by simp [b64encode] at hc
  | [b1], h, c, hc => by
    have hb1 : b1 < 256 := h b1 (by simp)
    simp only [b64encode, List.mem_cons, List.not_mem_nil, or_false] at hc
    rcases hc with rfl | rfl | rfl | rfl
    · rw [b64Val_b64Char _ (by omega)]; rfl
    · rw [b64Val_b64Char _ (by omega)]; rfl
    · rfl
    · rfl
  | [b1, b2], h, c, hc => by
    have hb1 : b1 < 256 := h b1 (by simp)
    have hb2 : b2 < 256 := h b2 (by simp)
    simp only [b64encode, List.mem_cons, List.not_mem_nil, or_false] at hc
    rcases hc with rfl | rfl | rfl | rfl
    · rw [b64Val_b64Char _ (by omega)]; rfl
    · rw [b64Val_b64Char _ (by omega)]; rfl
    · rw [b64Val_b64Char _ (by omega)]; rfl
    · rfl
  | b1 :: b2 :: b3 :: rest, h, c, hc => by
    have hb1 : b1 < 256 := h b1 (by simp)
    have hb2 : b2 < 256 := h b2 (by simp)
    have hb3 : b3 < 256 := h b3 (by simp)
    have htail : ∀ b ∈ rest, b < 256 := fun b hb => h b (by simp [hb])
    rw [show b64encode (b1 :: b2 :: b3 :: rest)
        = b64Char (b1 / 4) :: b64Char (b1 % 4 * 16 + b2 / 16)
          :: b64Char (b2 % 16 * 4 + b3 / 64) :: b64Char (b3 % 64)
          :: b64encode rest from rfl] at hc
    simp only [List.mem_cons] at hc
    rcases hc with rfl | rfl | rfl | rfl | hmem
    · rw [b64Val_b64Char _ (by omega)]; rfl
    · rw [b64Val_b64Char _ (by omega)]; rfl
    · rw [b64Val_b64Char _ (by omega)]; rfl
    · rw [b64Val_b64Char _ (by omega)]; rfl
    · exact b64encode_mem rest htail c hmem

/-- Decoding the encoder's quanta recovers the original bytes. -/
theorem b64quanta_encode : ∀ bs : List Nat, (∀ b ∈ bs, b < 256) →
    b64quanta (b64encode bs) = .ok bs
  | [], _ => rfl
  | [b1], h => by
    have hb1 : b1 < 256 := h b1 (by simp)
    show b64quanta [b64Char (b1 / 4), b64Char (b1 % 4 * 16), 61, 61] = _
    have e1 := b64Val_b64Char (b1 / 4) (by omega)
    have e2 := b64Val_b64Char (b1 % 4 * 16) (by omega)
    simp only [b64quanta, e1, e2, if_true, and_self, reduceIte]
    have harith : b1 / 4 * 4 + b1 % 4 * 16 / 16 = b1 := by omega
    rw [harith]
  | [b1, b2], h => by
    have hb1 : b1 < 256 := h b1 (by simp)
    have hb2 : b2 < 256 := h b2 (by simp)
    show b64quanta [b64Char (b1 / 4), b64Char (b1 % 4 * 16 + b2 / 16),
      b64Char (b2 % 16 * 4), 61] = _
    have e1 := b64Val_b64Char (b1 / 4) (by omega)
    have e2 := b64Val_b64Char (b1 % 4 * 16 + b2 / 16) (by omega)
    have e3 := b64Val_b64Char (b2 % 16 * 4) (by omega)
    have hp3 : ¬(b64Char (b2 % 16 * 4) = 61) := b64Char_ne_pad _ (by omega)
    simp only [b64quanta, e1, e2, e3, hp3, if_false, and_self, reduceIte]
    have h1 : b1 / 4 * 4 + (b1 % 4 * 16 + b2 / 16) / 16 = b1 := by omega
    have h2 : (b1 % 4 * 16 + b2 / 16) % 16 * 16 + b2 % 16 * 4 / 4 = b2 := by omega
    rw [h1, h2]
  | b1 :: b2 :: b3 :: rest, h => by
    have hb1 : b1 < 256 := h b1 (by simp)
    have hb2 : b2 < 256 := h b2 (by simp)
    have hb3 : b3 < 256 := h b3 (by simp)
    have htail : ∀ b ∈ rest, b < 256 := fun b hb => h b (by simp [hb])
    have ih := b64quanta_encode rest htail
    show b64quanta (b64Char (b1 / 4) :: b64Char (b1 % 4 * 16 + b2 / 16)
      :: b64Char (b2 % 16 * 4 + b3 / 64) :: b64Char (b3 % 64)
      :: b64encode rest) = _
    have e1 := b64Val_b64Char (b1 / 4) (by omega)
    have e2 := b64Val_b64Char (b1 % 4 * 16 + b2 / 16) (by omega)
    have e3 := b64Val_b64Char (b2 % 16 * 4 + b3 / 64) (by omega)
    have e4 := b64Val_b64Char (b3 % 64) (by omega)
    have hp3 : ¬(b64Char (b2 % 16 * 4 + b3 / 64) = 61) := b64Char_ne_pad _ (by omega)
    have hp4 : ¬(b64Char (b3 % 64) = 61) := b64Char_ne_pad _ (by omega)
    simp only [b64quanta, e1, e2, e3, e4, hp3, hp4, if_false, reduceIte, ih]
    have h1 : b1 / 4 * 4 + (b1 % 4 * 16 + b2 / 16) / 16 = b1 := by omega
    have h2 : (b1 % 4 * 16 + b2 / 16) % 16 * 16 + (b2 % 16 * 4 + b3 / 64) / 4 = b2 := by
      omega
    have h3 : (b2 % 16 * 4 + b3 / 64) % 4 * 64 + b3 % 64 = b3 := by omega
    rw [h1, h2, h3]

/-- `b64decode` inverts `b64encode` on byte lists. -/
theorem b64decode_b64encode (bs : List Nat) (h : ∀ b ∈ bs, b < 256) :
    b64decode (b64encode bs) = .ok bs := by
  rw [b64decode, List.filter_eq_self.mpr (b64encode_mem bs h), b64quanta_encode bs h]

/-- On ASCII-only text, UTF-8 encoding is the identity on code points. -/
theorem utf8encode_ascii (s : List Char) (h : ∀ c ∈ s, c.toNat < 128) :
    utf8encode s = s.map Char.toNat := by
  induction s with
  | nil => rfl
  | cons c t ih =>
    have hc : c.toNat < 128 := h c (by simp)
    have ht : ∀ a ∈ t, a.toNat < 128 := fun a ha => h a (by simp [ha])
    show (utf8encodeChar c :: t.map utf8encodeChar).flatten = _
    rw [List.flatten_cons, show utf8encodeChar c = [c.toNat] from by
      unfold utf8encodeChar
      rw [if_pos hc]]
    have : (t.map utf8encodeChar).flatten = t.map Char.toNat := ih ht
    rw [this]
    rfl

/-- Strict UTF-8 decoding inverts encoding on ASCII-only text (stated over the
fueled worker for the induction, then for `utf8decode`). -/
theorem utf8decodeAux_ascii (s : List Char) : ∀ fuel : Nat, s.length < fuel →
    (∀ c ∈ s, c.toNat < 128) → utf8decodeAux fuel (s.map Char.toNat) = .ok s := by
  induction s with
  | nil =>
    intro fuel hf h
    match fuel, hf with
    | fuel + 1, _ => rfl
  | cons c t ih =>
    intro fuel hf h
    have hc : c.toNat < 128 := h c (by simp)
    have ht : ∀ a ∈ t, a.toNat < 128 := fun a ha => h a (by simp [ha])
    match fuel, hf with
    | fuel + 1, hf =>
      show utf8decodeAux (fuel + 1) (c.toNat :: t.map Char.toNat) = _
      rw [utf8decodeAux.eq_def]
      simp only [if_pos (by omega : c.toNat < 128)]
      rw [ih fuel (by simpa using Nat.lt_of_succ_lt_succ hf) ht, Char.ofNat_toNat]

theorem utf8decode_ascii (s : List Char) (h : ∀ c ∈ s, c.toNat < 128) :
    utf8decode (s.map Char.toNat) = .ok s := by
  rw [utf8decode, utf8decodeAux_ascii s _ (by simp) h]

theorem hexDigitChar_ascii : ∀ d, (hexDigitChar d).toNat < 128 := by
  intro d
  unfold hexDigitChar
  split <;> decide

set_option maxRecDepth 4000 in
/-- The escaper only emits ASCII (that is the point of `ensure_ascii=True`). -/
theorem escapeChar_ascii (c : Char) : ∀ a ∈ escapeChar c, a.toNat < 128 := by
  intro a ha
  unfold escapeChar at ha
  split_ifs at ha with h1 h2 h3 h4 h5 h6 h7 h8
  · fin_cases ha <;> decide
  · fin_cases ha <;> decide
  · fin_cases ha <;> decide
  · fin_cases ha <;> decide
  · fin_cases ha <;> decide
  · fin_cases ha <;> decide
  · fin_cases ha <;> decide
  · unfold uEscape at ha
    split_ifs at ha
    · simp only [hex4, List.mem_cons, List.not_mem_nil, or_false] at ha
      rcases ha with rfl | rfl | rfl | rfl | rfl | rfl
      · decide
      · decide
      · exact hexDigitChar_ascii _
      · exact hexDigitChar_ascii _
      · exact hexDigitChar_ascii _
      · exact hexDigitChar_ascii _
    · rcases List.mem_cons.mp ha with rfl | ha2
      · decide
      rcases List.mem_cons.mp ha2 with rfl | ha3
      · decide
      rcases List.mem_append.mp ha3 with h4 | h4
      · simp only [hex4, List.mem_cons, List.not_mem_nil, or_false] at h4
        rcases h4 with h | h | h | h <;> (rw [h]; exact hexDigitChar_ascii _)
      · rcases List.mem_cons.mp h4 with rfl | h5
        · decide
        rcases List.mem_cons.mp h5 with rfl | h6
        · decide
        simp only [hex4, List.mem_cons, List.not_mem_nil, or_false] at h6
        rcases h6 with h | h | h | h <;> (rw [h]; exact hexDigitChar_ascii _)
  · push_neg at h8
    rcases (by simpa using ha : a = c) with rfl
    omega

theorem escapeStr_ascii (s : List Char) : ∀ a ∈ escapeStr s, a.toNat < 128 := by
  induction s with
  | nil => intro a ha; simp [escapeStr] at ha
  | cons c t ih =>
    intro a ha
    have hsplit : escapeStr (c :: t) = escapeChar c ++ escapeStr t := rfl
    rw [hsplit] at ha
    rcases List.mem_append.mp ha with h | h
    · exact escapeChar_ascii c a h
    · exact ih a h

theorem quoteStr_ascii (s : List Char) : ∀ a ∈ quoteStr s, a.toNat < 128 := by
  intro a ha
  rw [quoteStr] at ha
  rcases List.mem_cons.mp ha with rfl | h
  · decide
  · rcases List.mem_append.mp h with h2 | h2
    · exact escapeStr_ascii s a h2
    · rcases List.mem_singleton.mp h2 with rfl
      decide

theorem isDigitChar_ascii (c : Char) (h : isDigitChar c = true) : c.toNat < 128 := by
  simp only [isDigitChar, Bool.and_eq_true, decide_eq_true_eq] at h
  omega

theorem natDec_ascii (n : Nat) : ∀ a ∈ natDec n, a.toNat < 128 := by
  intro a ha
  unfold natDec at ha
  split_ifs at ha with h0
  · rcases (by simpa using ha : a = '0') with rfl; decide
  · exact isDigitChar_ascii a (natDecAux_digits n n a ha)

theorem intDec_ascii (m : Int) : ∀ a ∈ intDec m, a.toNat < 128 := by
  intro a ha
  cases m with
  | ofNat n => exact natDec_ascii n a ha
  | negSucc k =>
    rcases List.mem_cons.mp (by simpa [intDec] using ha) with rfl | h
    · decide
    · exact natDec_ascii (k + 1) a h

mutual
/-- The whole rendered text is ASCII. -/
theorem serVal_ascii : ∀ v : JValue, ∀ a ∈ serVal v, a.toNat < 128
  | .jnull, a, ha => by fin_cases ha <;> decide
  | .jbool true, a, ha => by fin_cases ha <;> decide
  | .jbool false, a, ha => by fin_cases ha <;> decide
  | .jint n, a, ha => intDec_ascii n a ha
  | .jstr s, a, ha => quoteStr_ascii s a ha
  | .jext s, a, ha => quoteStr_ascii s a ha
  | .jarr [], a, ha => by fin_cases ha <;> decide
  | .jarr (e :: es), a, ha => by
    rcases (by simpa [serVal] using ha : a = '[' ∨ a ∈ serVal e ∨ a ∈ serArrTail es)
      with rfl | h | h
    · decide
    · exact serVal_ascii e a h
    · exact serArrTail_ascii es a h
  | .jobj [], a, ha => by fin_cases ha <;> decide
  | .jobj (f :: fs), a, ha => by
    rcases (by simpa [serVal] using ha : a = '{' ∨ a ∈ serPair f ∨ a ∈ serObjTail fs)
      with rfl | h | h
    · decide
    · exact serPair_ascii f a h
    · exact serObjTail_ascii fs a h
theorem serArrTail_ascii : ∀ es : List JValue, ∀ a ∈ serArrTail es, a.toNat < 128
  | [], a, ha => by fin_cases ha; decide
  | e :: es, a, ha => by
    rcases (by simpa [serArrTail] using ha :
        a = ',' ∨ a = ' ' ∨ a ∈ serVal e ∨ a ∈ serArrTail es) with rfl | rfl | h | h
    · decide
    · decide
    · exact serVal_ascii e a h
    · exact serArrTail_ascii es a h
theorem serPair_ascii : ∀ f : List Char × JValue, ∀ a ∈ serPair f, a.toNat < 128
  | (k, v), a, ha => by
    rcases (by simpa [serPair] using ha :
        a ∈ quoteStr k ∨ a = ':' ∨ a = ' ' ∨ a ∈ serVal v) with h | rfl | rfl | h
    · exact quoteStr_ascii k a h
    · decide
    · decide
    · exact serVal_ascii v a h
theorem serObjTail_ascii : ∀ fs : ConfigMap, ∀ a ∈ serObjTail fs, a.toNat < 128
  | [], a, ha => by fin_cases ha; decide
  | f :: fs, a, ha => by
    rcases (by simpa [serObjTail] using ha :
        a = ',' ∨ a = ' ' ∨ a ∈ serPair f ∨ a ∈ serObjTail fs) with rfl | rfl | h | h
    · decide
    · decide
    · exact serPair_ascii f a h
    · exact serObjTail_ascii fs a h
end

/-- The envelope round trip: the stored blob of a rendered text decodes back
to exactly that text. -/
theorem envelope_roundtrip (s : List Char) (h : ∀ a ∈ s, a.toNat < 128) :
    (match b64decode (b64encode (utf8encode s)) with
      | .ok raw => utf8decode raw
      | .error e => .error e) = .ok s := by
  have hascii := utf8encode_ascii s h
  have hbytes : ∀ b ∈ utf8encode s, b < 256 := by
    rw [hascii]
    intro b hb
    obtain ⟨c, hc, rfl⟩ := List.mem_map.mp hb
    have := h c hc
    omega
  rw [b64decode_b64encode _ hbytes, hascii]
  show utf8decode (List.map Char.toNat s) = Except.ok s
  rw [utf8decode_ascii s h]

/-! ### Round trip, step 4: whole values -/

theorem digitChar_props (d : Nat) (h : d < 10) :
    isWsChar (digitChar d) = false ∧ digitChar d ≠ ']' ∧ digitChar d ≠ '}' := by
  interval_cases d <;> exact ⟨by decide, by decide, by decide⟩

/-- The first character of a rendered integer: a minus sign or a digit. -/
theorem intDec_head (m : Int) :
    ∃ c t, intDec m = c :: t ∧ (c = '-' ∨ ∃ d, d < 10 ∧ c = digitChar d) := by
  cases m with
  | ofNat n =>
    by_cases h0 : n = 0
    · exact ⟨'0', [], by rw [h0]; rfl, Or.inr ⟨0, by omega, rfl⟩⟩
    · obtain ⟨d, t, heq, hd, _⟩ := natDecAux_head n n h0 (Nat.le_refl n)
      exact ⟨digitChar d, t, by rw [show intDec (Int.ofNat n) = natDec n from rfl,
        natDec, if_neg h0, heq], Or.inr ⟨d, hd, rfl⟩⟩
  | negSucc k => exact ⟨'-', natDec (k + 1), rfl, Or.inl rfl⟩

/-- Every rendered value starts with a non-whitespace character that is not a
closing bracket. -/
theorem serVal_head (v : JValue) :
    ∃ c t, serVal v = c :: t ∧ isWsChar c = false ∧ c ≠ ']' := by
  cases v with
  | jnull => exact ⟨'n', _, rfl, by decide, by decide⟩
  | jbool b => cases b with
    | true => exact ⟨'t', _, rfl, by decide, by decide⟩
    | false => exact ⟨'f', _, rfl, by decide, by decide⟩
  | jstr s => exact ⟨'"', _, rfl, by decide, by decide⟩
  | jext s => exact ⟨'"', _, rfl, by decide, by decide⟩
  | jarr es => cases es with
    | nil => exact ⟨'[', _, rfl, by decide, by decide⟩
    | cons e es => exact ⟨'[', _, rfl, by decide, by decide⟩
  | jobj fs => cases fs with
    | nil => exact ⟨'{', _, rfl, by decide, by decide⟩
    | cons f fs => exact ⟨'{', _, rfl, by decide, by decide⟩
  | jint m =>
    obtain ⟨c, t, heq, hc⟩ := intDec_head m
    rcases hc with rfl | ⟨d, hd, rfl⟩
    · exact ⟨'-', t, heq, by decide, by decide⟩
    · obtain ⟨hw, hbr, _⟩ := digitChar_props d hd
      exact ⟨digitChar d, t, heq, hw, hbr⟩

theorem skipWs_cons_not (c : Char) (t : List Char) (h : isWsChar c = false) :
    skipWs (c :: t) = c :: t := by
  rw [skipWs, h]
  rfl

/-- Rendered values never start with whitespace. -/
theorem skipWs_serVal (v : JValue) (x : List Char) :
    skipWs (serVal v ++ x) = serVal v ++ x := by
  obtain ⟨c, t, heq, hw, _⟩ := serVal_head v
  rw [heq, List.cons_append, skipWs_cons_not c _ hw]

theorem serVal_length_pos (v : JValue) : 1 ≤ (serVal v).length := by
  obtain ⟨c, t, heq, _, _⟩ := serVal_head v
  rw [heq]
  simp

theorem serArrTail_length_pos (es : List JValue) : 1 ≤ (serArrTail es).length := by
  cases es <;> simp [serArrTail]

theorem serObjTail_length_pos (fs : ConfigMap) : 1 ≤ (serObjTail fs).length := by
  cases fs <;> simp [serObjTail]

/-- What follows a rendered array element is a separator or the close bracket. -/
theorem serArrTail_valueEnd (es : List JValue) (rest : List Char) :
    isValueEnd (serArrTail es ++ rest) = true := by
  cases es <;> rfl

theorem serObjTail_valueEnd (fs : ConfigMap) (rest : List Char) :
    isValueEnd (serObjTail fs ++ rest) = true := by
  cases fs <;> rfl

/-- Step equation: a value whose head is a number character scans as a number. -/
theorem parseValue_number_head (fuel : Nat) (c : Char) (t : List Char)
    (h : c = '-' ∨ ∃ d, d < 10 ∧ c = digitChar d) :
    parseValue (fuel + 1) (c :: t) = parseNumber (c :: t) := by
  rcases h with rfl | ⟨d, hd, rfl⟩
  · rfl
  · interval_cases d <;> rfl

/-- Step equation for the array branch (definitional). -/
theorem parseValue_lbrack (fuel : Nat) (r : List Char) :
    parseValue (fuel + 1) ('[' :: r) =
      (if (skipWs r).head? = some ']' then .ok (.jarr [], (skipWs r).tail)
       else
         match parseValue fuel (skipWs r) with
         | .ok (v, r1) =>
           match parseArrTail fuel r1 with
           | .ok (vs, r2) => .ok (.jarr (v :: vs), r2)
           | .error e => .error e
         | .error e => .error e) := rfl

/-- Step equation for the object branch (definitional). -/
theorem parseValue_lbrace (fuel : Nat) (r : List Char) :
    parseValue (fuel + 1) ('{' :: r) =
      (if (skipWs r).head? = some '}' then .ok (.jobj [], (skipWs r).tail)
       else
         match parsePair fuel (skipWs r) with
         | .ok (kv, r1) =>
           match parseObjTail fuel r1 with
           | .ok (kvs, r2) => .ok (.jobj (dictOfPairs (kv :: kvs)), r2)
           | .error e => .error e
         | .error e => .error e) := rfl

/-- Step equation for the string branch (definitional). -/
theorem parseValue_quote (fuel : Nat) (r : List Char) :
    parseValue (fuel + 1) ('"' :: r) =
      (match parseStringBody (r.length + 1) r with
       | .ok (cs, rest) => .ok (.jstr cs, rest)
       | .error e => .error e) := rfl

/-- Step equation for an array continuation after `", "` (definitional). -/
theorem parseArrTail_sep (fuel : Nat) (x : List Char) :
    parseArrTail (fuel + 1) (',' :: ' ' :: x) =
      (match parseValue fuel (skipWs x) with
       | .ok (v, r1) =>
         match parseArrTail fuel r1 with
         | .ok (vs, r2) => .ok (v :: vs, r2)
         | .error e => .error e
       | .error e => .error e) := rfl

/-- Step equation for an object continuation after `", "` (definitional). -/
theorem parseObjTail_sep (fuel : Nat) (x : List Char) :
    parseObjTail (fuel + 1) (',' :: ' ' :: x) =
      (match parsePair fuel (skipWs x) with
       | .ok (kv, r1) =>
         match parseObjTail fuel r1 with
         | .ok (kvs, r2) => .ok (kv :: kvs, r2)
         | .error e => .error e
       | .error e => .error e) := rfl

/-- Step equation for a member (definitional). -/
theorem parsePair_quote (fuel : Nat) (r : List Char) :
    parsePair (fuel + 1) ('"' :: r) =
      (match parseStringBody (r.length + 1) r with
       | .ok (k, r1) =>
         if (skipWs r1).head? = some ':' then
           match parseValue fuel (skipWs (skipWs r1).tail) with
           | .ok (v, r2) => .ok ((k, v), r2)
           | .error e => .error e
         else .error .jsonError
       | .error e => .error e) := rfl

/-! #### Python dict building -/

theorem keyAbsent_mem (k : List Char) (fs : ConfigMap) (h : keyAbsent k fs = true) :
    ∀ kv ∈ fs, (kv.1 == k) = false := by
  induction fs with
  | nil => intro kv hkv; simp at hkv
  | cons f fs ih =>
    intro kv hkv
    obtain ⟨k', v'⟩ := f
    rw [keyAbsent, Bool.and_eq_true] at h
    rcases List.mem_cons.mp hkv with rfl | hmem
    · simpa using h.1
    · exact ih h.2 kv hmem

/-- Inserting a fresh key appends. -/
theorem dictInsert_fresh (acc : ConfigMap) (k : List Char) (v : JValue)
    (h : ∀ kv ∈ acc, (kv.1 == k) = false) :
    dictInsert acc k v = acc ++ [(k, v)] := by
  induction acc with
  | nil => rfl
  | cons a acc ih =>
    obtain ⟨k', v'⟩ := a
    rw [dictInsert, h (k', v') (by simp), if_neg (by simp : ¬(false = true))]
    exact congrArg (List.cons (k', v')) (ih (fun kv hkv => h kv (by simp [hkv])))

theorem keyAbsent_append (k : List Char) (a b : ConfigMap) :
    keyAbsent k (a ++ b) = (keyAbsent k a && keyAbsent k b) := by
  induction a with
  | nil => simp [keyAbsent]
  | cons x a ih =>
    obtain ⟨k', v'⟩ := x
    simp [keyAbsent, ih, Bool.and_assoc]

/-- Folding distinct-keyed pairs into a dict is the identity (relative to an
accumulator none of whose keys reappear). -/
theorem dictFold_distinct (fs : ConfigMap) : ∀ acc : ConfigMap,
    nodupKeys fs = true → (∀ kv ∈ fs, keyAbsent kv.1 acc = true) →
    List.foldl (fun a kv => dictInsert a kv.1 kv.2) acc fs = acc ++ fs := by
  induction fs with
  | nil => intro acc _ _; simp
  | cons f fs ih =>
    intro acc hnd habs
    obtain ⟨k, v⟩ := f
    rw [nodupKeys, Bool.and_eq_true] at hnd
    have hfresh : ∀ kv ∈ acc, (kv.1 == k) = false :=
      keyAbsent_mem k acc (habs (k, v) (by simp))
    rw [List.foldl_cons]
    show List.foldl (fun a kv => dictInsert a kv.1 kv.2) (dictInsert acc k v) fs = _
    rw [dictInsert_fresh acc k v hfresh, ih (acc ++ [(k, v)]) hnd.2 ?_]
    · simp
    · intro kv hkv
      rw [keyAbsent_append, Bool.and_eq_true]
      refine ⟨habs kv (by simp [hkv]), ?_⟩
      have hne : (kv.1 == k) = false := keyAbsent_mem k fs hnd.1 kv hkv
      have hne2 : (k == kv.1) = false := by
        rw [beq_eq_false_iff_ne] at hne ⊢
        exact fun hcontra => hne hcontra.symm
      simp [keyAbsent, hne2]

/-- `dict(pairs)` over distinct keys is the identity. -/
theorem dictOfPairs_nodup (fs : ConfigMap) (h : nodupKeys fs = true) :
    dictOfPairs fs = fs := by
  rw [dictOfPairs, dictFold_distinct fs [] h (by intro kv _; rfl)]
  rfl

mutual
/-- Scanning a rendered value recovers it exactly, whenever the value is
JSON-compatible, its objects have distinct keys, the fuel exceeds the rendered
length, and what follows is a value boundary. -/
theorem rtVal : ∀ (v : JValue) (fuel : Nat) (rest : List Char),
    noExt v = true → wfKeys v = true → (serVal v).length < fuel → isValueEnd rest = true →
    parseValue fuel (serVal v ++ rest) = .ok (v, rest)
  | .jnull, fuel, rest, _, _, hf, _ => by
    match fuel, hf with
    | fuel + 1, _ => rfl
  | .jbool true, fuel, rest, _, _, hf, _ => by
    match fuel, hf with
    | fuel + 1, _ => rfl
  | .jbool false, fuel, rest, _, _, hf, _ => by
    match fuel, hf with
    | fuel + 1, _ => rfl
  | .jint m, fuel, rest, _, _, hf, hr => by
    match fuel, hf with
    | fuel + 1, hf =>
      obtain ⟨c, t, heq, hc⟩ := intDec_head m
      show parseValue (fuel + 1) (intDec m ++ rest) = _
      rw [heq, List.cons_append, parseValue_number_head fuel c _ hc, ← List.cons_append,
        ← heq, parseNumber_intDec m rest hr]
  | .jstr s, fuel, rest, _, _, hf, _ => by
    match fuel, hf with
    | fuel + 1, hf =>
      have harg : serVal (.jstr s) ++ rest = '"' :: (escapeStr s ++ ('"' :: rest)) := by
        show ('"' :: escapeStr s ++ ['"']) ++ rest = _
        simp [List.append_assoc]
      rw [harg, parseValue_quote, parseStringBody_escapeStr s _ rest (by
        have := length_le_escapeStr s
        simp only [List.length_append, List.length_cons]
        omega)]
  | .jext s, fuel, rest, hne, _, _, _ => by simp [noExt] at hne
  | .jarr [], fuel, rest, _, _, hf, _ => by
    match fuel, hf with
    | fuel + 1, _ => rfl
  | .jarr (e :: es), fuel, rest, hne, hwf, hf, hr => by
    match fuel, hf with
    | fuel + 1, hf =>
      have hne' : noExt e = true ∧ noExtL es = true := by
        simpa [noExt, noExtL, Bool.and_eq_true] using hne
      have hwf' : wfKeys e = true ∧ wfKeysL es = true := by
        simpa [wfKeys, wfKeysL, Bool.and_eq_true] using hwf
      have hlen : (serVal e).length + (serArrTail es).length < fuel := by
        simp only [serVal, List.length_cons, List.length_append] at hf
        omega
      have hpos1 := serVal_length_pos e
      have hpos2 := serArrTail_length_pos es
      have harg : serVal (.jarr (e :: es)) ++ rest
          = '[' :: (serVal e ++ (serArrTail es ++ rest)) := by
        show ('[' :: serVal e ++ serArrTail es) ++ rest = _
        simp [List.append_assoc]
      rw [harg, parseValue_lbrack, skipWs_serVal e (serArrTail es ++ rest)]
      obtain ⟨c, t, heq, hwsc, hbr⟩ := serVal_head e
      rw [if_neg (by rw [heq]; simp [hbr])]
      have h1 := rtVal e fuel (serArrTail es ++ rest) hne'.1 hwf'.1 (by omega)
        (serArrTail_valueEnd es rest)
      have h2 := rtArrTail es fuel rest hne'.2 hwf'.2 (by omega) hr
      simp only [h1, h2]
  | .jobj [], fuel, rest, _, _, hf, _ => by
    match fuel, hf with
    | fuel + 1, _ => rfl
  | .jobj ((k, v) :: fs), fuel, rest, hne, hwf, hf, hr => by
    match fuel, hf with
    | fuel + 1, hf =>
      have hne' : noExt v = true ∧ noExtF fs = true := by
        simpa [noExt, noExtF, Bool.and_eq_true] using hne
      have hwfs : wfKeys (.jobj ((k, v) :: fs)) = true := hwf
      have hnd : nodupKeys ((k, v) :: fs) = true := by
        rw [wfKeys, Bool.and_eq_true] at hwfs
        exact hwfs.1
      have hwf' : wfKeys v = true ∧ wfKeysF fs = true := by
        rw [wfKeys, Bool.and_eq_true] at hwfs
        have := hwfs.2
        rw [wfKeysF, Bool.and_eq_true] at this
        exact this
      have hlen : (serPair (k, v)).length + (serObjTail fs).length < fuel := by
        simp only [serVal, List.length_cons, List.length_append] at hf
        omega
      have hpos1 : 1 ≤ (serPair (k, v)).length := by
        simp [serPair, quoteStr]
      have hpos2 := serObjTail_length_pos fs
      have harg : serVal (.jobj ((k, v) :: fs)) ++ rest
          = '{' :: (serPair (k, v) ++ (serObjTail fs ++ rest)) := by
        show ('{' :: serPair (k, v) ++ serObjTail fs) ++ rest = _
        simp [List.append_assoc]
      rw [harg, parseValue_lbrace]
      have hps : serPair (k, v) = '"' :: ((escapeStr k ++ ['"']) ++ ':' :: ' ' :: serVal v) :=
        rfl
      have hskip : skipWs (serPair (k, v) ++ (serObjTail fs ++ rest))
          = serPair (k, v) ++ (serObjTail fs ++ rest) := by
        rw [hps, List.cons_append, skipWs_cons_not '"' _ (by decide)]
      rw [hskip]
      rw [if_neg (by rw [hps]; simp)]
      have h1 := rtPair k v fuel (serObjTail fs ++ rest) hne'.1 hwf'.1 (by omega)
        (serObjTail_valueEnd fs rest)
      have h2 := rtObjTail fs fuel rest hne'.2 hwf'.2 (by omega) hr
      simp only [h1, h2, dictOfPairs_nodup _ hnd]
termination_by v _ _ _ _ _ _ => sizeOf v
/-- Scanning the rendered continuation of an array recovers the remaining
elements and consumes the closing bracket. -/
theorem rtArrTail : ∀ (es : List JValue) (fuel : Nat) (rest : List Char),
    noExtL es = true → wfKeysL es = true → (serArrTail es).length < fuel →
    isValueEnd rest = true →
    parseArrTail fuel (serArrTail es ++ rest) = .ok (es, rest)
  | [], fuel, rest, _, _, hf, _ => by
    match fuel, hf with
    | fuel + 1, _ => rfl
  | e :: es, fuel, rest, hne, hwf, hf, hr => by
    match fuel, hf with
    | fuel + 1, hf =>
      have hne' : noExt e = true ∧ noExtL es = true := by
        simpa [noExtL, Bool.and_eq_true] using hne
      have hwf' : wfKeys e = true ∧ wfKeysL es = true := by
        simpa [wfKeysL, Bool.and_eq_true] using hwf
      have hlen : (serVal e).length + (serArrTail es).length + 1 < fuel := by
        simp only [serArrTail, List.length_cons, List.length_append] at hf
        omega
      have hpos1 := serVal_length_pos e
      have hpos2 := serArrTail_length_pos es
      have harg : serArrTail (e :: es) ++ rest
          = ',' :: ' ' :: (serVal e ++ (serArrTail es ++ rest)) := by
        show (',' :: ' ' :: serVal e ++ serArrTail es) ++ rest = _
        simp [List.append_assoc]
      rw [harg, parseArrTail_sep, skipWs_serVal e (serArrTail es ++ rest)]
      have h1 := rtVal e fuel (serArrTail es ++ rest) hne'.1 hwf'.1 (by omega)
        (serArrTail_valueEnd es rest)
      have h2 := rtArrTail es fuel rest hne'.2 hwf'.2 (by omega) hr
      simp only [h1, h2]
termination_by es _ _ _ _ _ _ => sizeOf es
/-- Scanning a rendered member recovers its key and value. -/
theorem rtPair : ∀ (k : List Char) (v : JValue) (fuel : Nat) (rest : List Char),
    noExt v = true → wfKeys v = true → (serPair (k, v)).length < fuel →
    isValueEnd rest = true →
    parsePair fuel (serPair (k, v) ++ rest) = .ok ((k, v), rest)
  | k, v, fuel, rest, hne, hwf, hf, hr => by
    match fuel, hf with
    | fuel + 1, hf =>
      have hlen : (escapeStr k).length + (serVal v).length + 3 < fuel := by
        simp only [serPair, quoteStr, List.length_cons, List.length_append] at hf
        omega
      have hklen := length_le_escapeStr k
      have harg : serPair (k, v) ++ rest
          = '"' :: (escapeStr k ++ ('"' :: ':' :: ' ' :: (serVal v ++ rest))) := by
        show (('"' :: escapeStr k ++ ['"']) ++ (':' :: ' ' :: serVal v)) ++ rest = _
        simp [List.append_assoc]
      rw [harg, parsePair_quote, parseStringBody_escapeStr k _ _ (by
        simp only [List.length_append, List.length_cons]
        omega)]
      have h1 := rtVal v fuel rest hne hwf (by omega) hr
      simp only []
      rw [show skipWs (':' :: ' ' :: (serVal v ++ rest))
          = ':' :: ' ' :: (serVal v ++ rest) from rfl]
      rw [if_pos (show (':' :: ' ' :: (serVal v ++ rest)).head? = some ':' from rfl)]
      rw [show skipWs ((':' :: ' ' :: (serVal v ++ rest)).tail)
          = skipWs (serVal v ++ rest) from rfl]
      rw [skipWs_serVal v rest, h1]
termination_by _ v _ _ _ _ _ _ => sizeOf v + 1
/-- Scanning the rendered continuation of an object recovers the remaining
members and consumes the closing brace. -/
theorem rtObjTail : ∀ (fs : ConfigMap) (fuel : Nat) (rest : List Char),
    noExtF fs = true → wfKeysF fs = true → (serObjTail fs).length < fuel →
    isValueEnd rest = true →
    parseObjTail fuel (serObjTail fs ++ rest) = .ok (fs, rest)
  | [], fuel, rest, _, _, hf, _ => by
    match fuel, hf with
    | fuel + 1, _ => rfl
  | (k, v) :: fs, fuel, rest, hne, hwf, hf, hr => by
    match fuel, hf with
    | fuel + 1, hf =>
      have hne' : noExt v = true ∧ noExtF fs = true := by
        simpa [noExtF, Bool.and_eq_true] using hne
      have hwf' : wfKeys v = true ∧ wfKeysF fs = true := by
        simpa [wfKeysF, Bool.and_eq_true] using hwf
      have hlen : (serPair (k, v)).length + (serObjTail fs).length + 1 < fuel := by
        simp only [serObjTail, List.length_cons, List.length_append] at hf
        omega
      have hpos1 : 1 ≤ (serPair (k, v)).length := by
        simp [serPair, quoteStr]
      have hpos2 := serObjTail_length_pos fs
      have harg : serObjTail ((k, v) :: fs) ++ rest
          = ',' :: ' ' :: (serPair (k, v) ++ (serObjTail fs ++ rest)) := by
        show (',' :: ' ' :: serPair (k, v) ++ serObjTail fs) ++ rest = _
        simp [List.append_assoc]
      rw [harg, parseObjTail_sep]
      have hps : serPair (k, v) = '"' :: ((escapeStr k ++ ['"']) ++ ':' :: ' ' :: serVal v) :=
        rfl
      have hskip : skipWs (serPair (k, v) ++ (serObjTail fs ++ rest))
          = serPair (k, v) ++ (serObjTail fs ++ rest) := by
        rw [hps, List.cons_append, skipWs_cons_not '"' _ (by decide)]
      rw [hskip]
      have h1 := rtPair k v fuel (serObjTail fs ++ rest) hne'.1 hwf'.1 (by omega)
        (serObjTail_valueEnd fs rest)
      have h2 := rtObjTail fs fuel rest hne'.2 hwf'.2 (by omega) hr
      simp only [h1, h2]
termination_by fs _ _ _ _ _ _ => sizeOf fs
end

/-- `json.loads` inverts `json.dumps` on every JSON-compatible value whose
objects have distinct keys. -/
theorem jsonLoads_serVal (v : JValue) (hne : noExt v = true) (hwf : wfKeys v = true) :
    jsonLoads (serVal v) = .ok v := by
  have hskip : skipWs (serVal v) = serVal v := by
    simpa using skipWs_serVal v []
  have h := rtVal v ((serVal v).length + 1) [] hne hwf (by omega) rfl
  rw [List.append_nil] at h
  rw [jsonLoads, hskip, h]
  rfl

/-- The full configuration round trip: decoding the blob `from_request` writes
recovers the configuration mapping exactly. -/
theorem decodeConfig_encodeConfigCreate (cfg : ConfigMap)
    (hne : noExt (.jobj cfg) = true) (hwf : wfKeys (.jobj cfg) = true) :
    decodeConfig (encodeConfigCreate cfg) = .ok (.jobj cfg) := by
  have hascii : ∀ a ∈ serVal (.jobj cfg), a.toNat < 128 := serVal_ascii _
  have hbytes : ∀ b ∈ utf8encode (serVal (.jobj cfg)), b < 256 := by
    rw [utf8encode_ascii _ hascii]
    intro b hb
    obtain ⟨c, hc, rfl⟩ := List.mem_map.mp hb
    have := hascii c hc
    omega
  rw [decodeConfig, encodeConfigCreate, b64decode_b64encode _ hbytes,
    utf8encode_ascii _ hascii]
  show (match utf8decode (List.map Char.toNat (serVal (.jobj cfg))) with
    | Except.error e => Except.error e
    | Except.ok txt => jsonLoads txt) = _
  rw [utf8decode_ascii _ hascii]
  show jsonLoads (serVal (.jobj cfg)) = _
  rw [jsonLoads_serVal _ hne hwf]

/-! ### The schema layer: `EventSourceSchema` and the response models -/

/-- Opaque unique identifiers (`uuid.UUID` values). -/
abbrev UUID := Nat

/-- The workspace scope collaborator (external, §6 of the spec), modelled
minimally: an id plus payload. -/
structure WorkspaceSchema where
  id : UUID
  name : String
deriving DecidableEq, Repr

structure WorkspaceResponse where
  id : UUID
  name : String
deriving DecidableEq, Repr

/-- `WorkspaceSchema.to_model`, the scope resolution `to_model` performs. -/
def WorkspaceSchema.to_model (w : WorkspaceSchema) : WorkspaceResponse :=
  { id := w.id, name := w.name }

/-- The user (owner) collaborator, modelled minimally. -/
structure UserSchema where
  id : UUID
  name : String
deriving DecidableEq, Repr

structure UserResponse where
  id : UUID
  name : String
deriving DecidableEq, Repr

def UserSchema.to_model (u : UserSchema) : UserResponse :=
  { id := u.id, name := u.name }

/-- The in-memory state of the `user` relationship attribute: `None` (not
loaded, or the owner is absent), a loaded `UserSchema` row, or a stray raw
UUID written by `setattr` during a generic update (`update.user` carries a
UUID and `setattr(self, "user", value)` targets the relationship attribute,
not the `user_id` column). -/
inductive UserRel where
  | noneRel
  | loaded (u : UserSchema)
  | strayId (i : UUID)
deriving DecidableEq, Repr

/-- The `workspace` relationship attribute, with the same three states. -/
inductive WorkspaceRel where
  | noneRel
  | loaded (w : WorkspaceSchema)
  | strayId (i : UUID)
deriving DecidableEq, Repr

/-- `EventSourceRequest` (`models/v2/core/event_source.py`) together with the
scope fields it inherits.  Modelled from the spec: the
`WorkspaceScopedRequest`/`UserScopedRequest` bases are not among the shown
sources; per the spec the workspace scope is mandatory, the owner optional,
and both are injected by the calling context, never taken from the
client-controlled payload (`configuration` is the client-shaped free-form
part).  `plugin_type`/`plugin_subtype` are enum-valued in the source; strings
model the enum carrier. -/
structure EventSourceRequest where
  user : Option UUID
  workspace : UUID
  name : String
  flavor : String
  plugin_type : String
  plugin_subtype : String
  description : String
  configuration : ConfigMap

/-- The persisted row (`EventSourceSchema` in
`zen_stores/schemas/event_source_schemas.py`).  The `id`/`created`/`updated`
columns come from the `NamedSchema`/`BaseSchema` bases, which are not among
the shown sources; modelled from the spec, they are assigned at creation and
passed explicitly here.  Time is an abstract clock tick (`Nat`), the stored
`configuration` is the raw byte blob. -/
structure EventSourceSchema where
  id : UUID
  created : Nat
  updated : Nat
  name : String
  workspace_id : UUID
  user_id : Option UUID
  flavor : String
  plugin_type : String
  plugin_subtype : String
  description : String
  configuration : List Nat
  workspace : WorkspaceRel
  user : UserRel

/-- `EventSourceSchema.from_request`: copies the payload fields, takes
`workspace_id`/`user_id` from the request's scope fields, and encodes the
configuration with `json.dumps(..., sort_keys=False, default=pydantic_encoder)`
wrapped in base64.  `freshId` and `now` stand for the id and creation tick
the schema-base defaults / storage layer assign; the relationship attributes
start out unloaded. -/
def EventSourceSchema.from_request (request : EventSourceRequest) (freshId : UUID)
    (now : Nat) : EventSourceSchema :=
  { id := freshId
    created := now
    updated := now
    workspace_id := request.workspace
    user_id := request.user
    flavor := request.flavor
    plugin_type := request.plugin_type
    plugin_subtype := request.plugin_subtype
    name := request.name
    description := request.description
    configuration := encodeConfigCreate request.configuration
    workspace := .noneRel
    user := .noneRel }

structure EventSourceResponseBody where
  created : Nat
  updated : Nat
  user : Option UserResponse
  flavor : String
  plugin_type : String
  plugin_subtype : String
deriving DecidableEq, Repr

structure EventSourceResponseMetadata where
  workspace : WorkspaceResponse
  description : String
  configuration : ConfigMap

/-- `EventSourceResponse`: `body` and `metadata` are the optional slots of the
generic `BaseResponse`; an absent `metadata` is the unhydrated state. -/
structure EventSourceResponse where
  id : UUID
  name : String
  body : Option EventSourceResponseBody
  metadata : Option EventSourceResponseMetadata

/-- `EventSourceSchema.to_model`.  Alongside the response it returns two ghost
counters: the number of configuration-decode calls and of workspace scope
resolutions performed — the observables of the spec's P3.  The error cases
are the exceptions the Python code can raise: `AttributeError` when a
relationship attribute holds no schema object, the `CorruptionError` family
from the decode expression, and the validation failure when the decoded
configuration is not a mapping. -/
def EventSourceSchema.to_model (self : EventSourceSchema) (hydrate : Bool) :
    Except PyError (EventSourceResponse × Nat × Nat) :=
  match (match self.user with
    | .noneRel => Except.ok none                       -- `if self.user` is falsy
    | .loaded u => Except.ok (some u.to_model)
    | .strayId _ => Except.error PyError.attrError) with
  | .error e => .error e
  | .ok userModel =>
    let body : EventSourceResponseBody :=
      { created := self.created, updated := self.updated, user := userModel,
        flavor := self.flavor, plugin_type := self.plugin_type,
        plugin_subtype := self.plugin_subtype }
    if hydrate then
      match (match self.workspace with
        | .loaded w => Except.ok w.to_model
        | _ => Except.error PyError.attrError) with
      | .error e => .error e
      | .ok wsModel =>
        match decodeConfig self.configuration with
        | .error e => .error (.corruption e)
        | .ok cfgVal =>
          match cfgVal with
          | .jobj fields =>
            .ok ({ id := self.id, name := self.name, body := some body,
                   metadata := some { workspace := wsModel,
                                      description := self.description,
                                      configuration := fields } }, 1, 1)
          | _ => .error .validationError     -- pydantic: configuration must be a mapping
    else
      .ok ({ id := self.id, name := self.name, body := some body,
             metadata := none }, 0, 0)

/-- `EventSourceUpdate`: structurally the request with every field optional
plus `rotate_secret`.  The outer `Option` is the explicit field mask
(pydantic `exclude_unset`): `none` means not supplied, `some v` means
explicitly set to `v`.  `user`/`workspace` are the inherited scope fields;
explicit `None` assignments to the plain string fields and to `configuration`
are not modelled (client payloads use the declared shapes there). -/
structure EventSourceUpdate where
  user : Option (Option UUID) := none
  workspace : Option (Option UUID) := none
  name : Option String := none
  flavor : Option String := none
  plugin_type : Option String := none
  plugin_subtype : Option String := none
  description : Option String := none
  configuration : Option ConfigMap := none
  rotate_secret : Option (Option Bool) := none

/-- What `setattr(self, "user", value)` leaves in the relationship slot. -/
def strayUser : Option UUID → UserRel
  | none => .noneRel
  | some i => .strayId i

/-- What `setattr(self, "workspace", value)` leaves in the relationship slot. -/
def strayWorkspace : Option UUID → WorkspaceRel
  | none => .noneRel
  | some i => .strayId i

/-- `EventSourceSchema.update`: iterates exactly the explicitly-set fields of
the update (`update.dict(exclude_unset=True)`, in pydantic field order
`user`, `workspace`, `name`, `flavor`, `plugin_type`, `plugin_subtype`,
`description`, `configuration`, `rotate_secret`):

* `configuration` is re-encoded with a plain `json.dumps` — without the
  `default=pydantic_encoder` fallback the creation path uses — and the stored
  blob replaced whole; a `TypeError` there propagates out;
* `flavor`, `plugin_type`, `plugin_subtype` and `rotate_secret` are
  explicitly skipped (the `pass` branch);
* every other set field is written verbatim by `setattr` — for the inherited
  scope fields that targets the `user`/`workspace` relationship attributes,
  not the `user_id`/`workspace_id` columns;
* finally `self.updated = datetime.utcnow()` unconditionally; `now` models
  the clock reading.

One helper per loop iteration below, then the driver. -/
def applyUserField (r : EventSourceSchema) : Option (Option UUID) → EventSourceSchema
  | none => r
  | some v => { r with user := strayUser v }

/-- One loop iteration for a set `workspace` field. -/
def applyWorkspaceField (r : EventSourceSchema) : Option (Option UUID) → EventSourceSchema
  | none => r
  | some v => { r with workspace := strayWorkspace v }

/-- One loop iteration for a set `name` field. -/
def applyNameField (r : EventSourceSchema) : Option String → EventSourceSchema
  | none => r
  | some v => { r with name := v }

/-- One loop iteration for a set `description` field. -/
def applyDescriptionField (r : EventSourceSchema) : Option String → EventSourceSchema
  | none => r
  | some v => { r with description := v }

def EventSourceSchema.update (self : EventSourceSchema) (u : EventSourceUpdate)
    (now : Nat) : Except PyError EventSourceSchema :=
  -- flavor, plugin_type, plugin_subtype are explicitly skipped (immutability
  -- policy), as is rotate_secret (external side effect, no stored field)
  let r4 := applyDescriptionField
    (applyNameField (applyWorkspaceField (applyUserField self u.user) u.workspace) u.name)
    u.description
  match u.configuration with
  | none => .ok { r4 with updated := now }
  | some cfg =>
    match dumpsPlain (.jobj cfg) with
    | .error e => .error e
    | .ok txt =>
      .ok { r4 with configuration := b64encode (utf8encode txt), updated := now }

/-- A sequence of `update` calls with their clock readings, stopping at the
first failure. -/
def updateSeq (r : EventSourceSchema) :
    List (EventSourceUpdate × Nat) → Except PyError EventSourceSchema
  | [] => .ok r
  | (u, t) :: rest =>
    match r.update u t with
    | .ok r2 => updateSeq r2 rest
    | .error e => .error e

/-! ### The hydration protocol on responses -/

/-- The injected store handle: what `Client().zen_store.get_event_source(id)`
returns — the hydrated response for the id, if the id exists. -/
def Store := UUID → Option EventSourceResponse

/-- `EventSourceResponse.get_hydrated_version`
(`models/v2/core/event_source.py`): re-fetches the full entity by its own id
through the store handle. -/
def EventSourceResponse.get_hydrated_version (self : EventSourceResponse)
    (store : Store) : Except PyError EventSourceResponse :=
  match store self.id with
  | some r => .ok r
  | none => .error .notFound

/-- Modelled from the spec: `BaseResponse.get_metadata`
(`models/v2/base/base.py`) is not among the shown sources.  Per the spec's
hydration protocol (§4.4), a metadata access on a hydrated response answers
from the object with no fetch; on an unhydrated response it fetches the
hydrated version through the store handle once, memoizes the fetched metadata
on the object, and answers from that.  The returned `Nat` is the number of
store fetches performed and the returned response is the possibly-memoized
receiver. -/
def EventSourceResponse.get_metadata (self : EventSourceResponse) (store : Store) :
    Except PyError (EventSourceResponseMetadata × EventSourceResponse × Nat) :=
  match self.metadata with
  | some md => .ok (md, self, 0)
  | none =>
    match self.get_hydrated_version store with
    | .error e => .error e
    | .ok hyd =>
      match hyd.metadata with
      | some md => .ok (md, { self with metadata := some md }, 1)
      | none => .error .validationError   -- the hydrated version must carry metadata

/-- The `description` property: `self.get_metadata().description`, with the
memoized receiver and fetch count passed through. -/
def EventSourceResponse.description (self : EventSourceResponse) (store : Store) :
    Except PyError (String × EventSourceResponse × Nat) :=
  match self.get_metadata store with
  | .ok (md, s, n) => .ok (md.description, s, n)
  | .error e => .error e

/-- The user relationship attribute is in a state `to_model` can read:
`None` or a loaded row, not a stray raw UUID. -/
def UserOk (r : EventSourceSchema) : Prop :=
  r.user = .noneRel ∨ ∃ u, r.user = .loaded u

/-- A row as the store hands it out for reading: relationship attributes
loaded, consistently with the foreign-key columns. -/
def Loaded (r : EventSourceSchema) : Prop :=
  (∃ w, r.workspace = .loaded w ∧ w.id = r.workspace_id) ∧
  ((r.user_id = none ∧ r.user = .noneRel) ∨
    (∃ i u, r.user_id = some i ∧ r.user = .loaded u ∧ u.id = i))

/-! ### Characterizing `update` -/

theorem applyUserField_eq (r : EventSourceSchema) (m : Option (Option UUID)) :
    applyUserField r m
      = { r with user := match m with | none => r.user | some v => strayUser v } := by
  cases m <;> rfl

theorem applyWorkspaceField_eq (r : EventSourceSchema) (m : Option (Option UUID)) :
    applyWorkspaceField r m
      = { r with workspace := match m with | none => r.workspace | some v => strayWorkspace v } := by
  cases m <;> rfl

theorem applyNameField_eq (r : EventSourceSchema) (m : Option String) :
    applyNameField r m = { r with name := m.getD r.name } := by
  cases m <;> rfl

theorem applyDescriptionField_eq (r : EventSourceSchema) (m : Option String) :
    applyDescriptionField r m = { r with description := m.getD r.description } := by
  cases m <;> rfl

/-- The row `update` builds before the configuration/timestamp step: every
field written verbatim from the mask, everything else untouched. -/
theorem update_scalar_eq (r : EventSourceSchema) (u : EventSourceUpdate) :
    applyDescriptionField
        (applyNameField (applyWorkspaceField (applyUserField r u.user) u.workspace) u.name)
        u.description
      = { r with
          user := match u.user with | none => r.user | some v => strayUser v
          workspace := match u.workspace with | none => r.workspace | some v => strayWorkspace v
          name := u.name.getD r.name
          description := u.description.getD r.description } := by
  rw [applyUserField_eq, applyWorkspaceField_eq, applyNameField_eq, applyDescriptionField_eq]

/-- Full characterization of a successful `update`. -/
theorem update_ok_spec (r r' : EventSourceSchema) (u : EventSourceUpdate) (t : Nat)
    (h : r.update u t = .ok r') :
    r'.id = r.id ∧ r'.created = r.created ∧ r'.workspace_id = r.workspace_id ∧
    r'.user_id = r.user_id ∧ r'.flavor = r.flavor ∧ r'.plugin_type = r.plugin_type ∧
    r'.plugin_subtype = r.plugin_subtype ∧ r'.updated = t ∧
    r'.name = u.name.getD r.name ∧
    r'.description = u.description.getD r.description ∧
    r'.user = (match u.user with | none => r.user | some v => strayUser v) ∧
    r'.workspace = (match u.workspace with | none => r.workspace | some v => strayWorkspace v) ∧
    (u.configuration = none → r'.configuration = r.configuration) ∧
    (∀ cfg, u.configuration = some cfg →
      noExt (.jobj cfg) = true ∧ r'.configuration = b64encode (utf8encode (serVal (.jobj cfg)))) := by
  rw [EventSourceSchema.update] at h
  rw [update_scalar_eq] at h
  cases hc : u.configuration with
  | none =>
    rw [hc] at h
    simp only [Except.ok.injEq] at h
    subst h
    refine ⟨rfl, rfl, rfl, rfl, rfl, rfl, rfl, rfl, rfl, rfl, rfl, rfl, fun _ => rfl, ?_⟩
    intro cfg hcontra
    cases hcontra
  | some cfg =>
    rw [hc] at h
    simp only [dumpsPlain] at h
    by_cases hne : noExt (JValue.jobj cfg) = true
    · rw [if_pos hne] at h
      simp only [Except.ok.injEq] at h
      subst h
      refine ⟨rfl, rfl, rfl, rfl, rfl, rfl, rfl, rfl, rfl, rfl, rfl, rfl, ?_, ?_⟩
      · intro hcontra; cases hcontra
      · intro cfg2 heq
        cases heq
        exact ⟨hne, rfl⟩
    · rw [if_neg hne] at h
      cases h

/-- `update` never reads `rotate_secret`: its result is literally independent
of that field. -/
theorem update_rotate_free (r : EventSourceSchema) (u : EventSourceUpdate)
    (t : Nat) (x : Option (Option Bool)) :
    r.update { u with rotate_secret := x } t = r.update u t := rfl

/-- A successful `update` that explicitly sets `configuration`, spelled out:
the serialized text is wrapped in UTF-8 + base64 and replaces the blob whole. -/
theorem update_config_some (r : EventSourceSchema) (u : EventSourceUpdate)
    (cfg : ConfigMap) (t : Nat) (txt : List Char)
    (hset : u.configuration = some cfg)
    (hdp : dumpsPlain (.jobj cfg) = .ok txt) :
    r.update u t = .ok { applyDescriptionField (applyNameField (applyWorkspaceField
        (applyUserField r u.user) u.workspace) u.name) u.description with
        configuration := b64encode (utf8encode txt), updated := t } := by
  rw [EventSourceSchema.update, hset]
  show (match dumpsPlain (JValue.jobj cfg) with
    | .error e => (.error e : Except PyError EventSourceSchema)
    | .ok txt2 => .ok { applyDescriptionField (applyNameField (applyWorkspaceField
        (applyUserField r u.user) u.workspace) u.name) u.description with
        configuration := b64encode (utf8encode txt2), updated := t }) = _
  rw [hdp]

/-- Along a chain of successful `update` calls whose clock readings strictly
increase from the row's current `updated`, the timestamp strictly increases
with every call. -/
theorem updateSeq_updated_mono (us : List (EventSourceUpdate × Nat)) :
    ∀ r r' : EventSourceSchema,
      List.Chain (fun a b => a < b) r.updated (us.map Prod.snd) →
      updateSeq r us = .ok r' →
      r.updated ≤ r'.updated ∧ (us ≠ [] → r.updated < r'.updated) := by
  induction us with
  | nil =>
    intro r r' _ h
    simp only [updateSeq, Except.ok.injEq] at h
    subst h
    exact ⟨Nat.le_refl _, fun hne => absurd rfl hne⟩
  | cons ut rest ih =>
    intro r r' hchain h
    obtain ⟨u, t⟩ := ut
    simp only [updateSeq] at h
    cases hu : r.update u t with
    | error e => rw [hu] at h; cases h
    | ok r2 =>
      rw [hu] at h
      have ht : r2.updated = t := (update_ok_spec r r2 u t hu).2.2.2.2.2.2.2.1
      simp only [List.map] at hchain
      cases hchain with
      | cons hlt htail =>
        have hrec := ih r2 r' (by rw [ht]; exact htail) h
        have hstep : r.updated < r2.updated := by rw [ht]; exact hlt
        exact ⟨Nat.le_of_lt (Nat.lt_of_lt_of_le hstep hrec.1),
               fun _ => Nat.lt_of_lt_of_le hstep hrec.1⟩

/-! ### Concrete fixtures -/

/-- Scenario A's configuration: a nested mapping of JSON-native values. -/
def cfgA : ConfigMap :=
  [("threshold".data, .jint 5),
   ("labels".data, .jarr [.jstr "a".data, .jstr "b".data])]

def wsW : WorkspaceSchema := { id := 7, name := "ws" }

def userU : UserSchema := { id := 3, name := "alice" }

def reqA : EventSourceRequest :=
  { user := some 3, workspace := 7, name := "es", flavor := "github",
    plugin_type := "event_source", plugin_subtype := "webhook",
    description := "d", configuration := cfgA }

/-- A fully stored row for the scenario-A request, relationships loaded. -/
def rowA : EventSourceSchema :=
  { id := 1, created := 0, updated := 0, name := "es", workspace_id := 7,
    user_id := some 3, flavor := "github", plugin_type := "event_source",
    plugin_subtype := "webhook", description := "d",
    configuration := encodeConfigCreate cfgA,
    workspace := .loaded wsW, user := .loaded userU }

/-- An update payload that explicitly sets every field, the immutable and
secret ones included. -/
def updAll : EventSourceUpdate :=
  { user := some (some 9), workspace := some (some 8), name := some "n2",
    flavor := some "f2", plugin_type := some "t2", plugin_subtype := some "s2",
    description := some "d2", configuration := some cfgA,
    rotate_secret := some (some true) }

def rowAUpd : EventSourceSchema :=
  { rowA with
    user := .strayId 9, workspace := .strayId 8, name := "n2",
    description := "d2",
    configuration := b64encode (utf8encode (serVal (.jobj cfgA))),
    updated := 5 }

/-- An update payload that only renames. -/
def updName : EventSourceUpdate := { name := some "renamed" }

def rowARen : EventSourceSchema := { rowA with name := "renamed", updated := 5 }

/-! ### The claims -/

/-- C6: `from_request` takes the stored `workspace_id` from the supplied
workspace scope and `user_id` from the supplied owner scope, and both columns
are invariant under arbitrary changes to the client-controlled free-form
payload (the configuration mapping — the place where workspace/user-shaped
fields of the raw body live in this model), so scope can never be injected
through the request body. -/
theorem c6_scope_injection_safety (req : EventSourceRequest) (fid : UUID) (t : Nat) :
    (EventSourceSchema.from_request req fid t).workspace_id = req.workspace ∧
    (EventSourceSchema.from_request req fid t).user_id = req.user ∧
    ∀ payload : ConfigMap,
      (EventSourceSchema.from_request { req with configuration := payload } fid
          t).workspace_id
        = (EventSourceSchema.from_request req fid t).workspace_id ∧
      (EventSourceSchema.from_request { req with configuration := payload } fid
          t).user_id
        = (EventSourceSchema.from_request req fid t).user_id :=
  ⟨rfl, rfl, fun _ => ⟨rfl, rfl⟩⟩

/-- C2: a successful `update` leaves `id`, `created`, `workspace_id`,
`flavor`, `plugin_type` and `plugin_subtype` unchanged — the payload `u` is
arbitrary, so it may explicitly carry values for all of those fields — and
the outcome is independent of `rotate_secret`, which is never written to any
stored field. -/
theorem c2_immutable_identity (r r' : EventSourceSchema) (u : EventSourceUpdate)
    (t : Nat) (h : r.update u t = .ok r') :
    r'.id = r.id ∧ r'.created = r.created ∧ r'.workspace_id = r.workspace_id ∧
    r'.flavor = r.flavor ∧ r'.plugin_type = r.plugin_type ∧
    r'.plugin_subtype = r.plugin_subtype ∧
    ∀ x, r.update { u with rotate_secret := x } t = .ok r' := by
  obtain ⟨h1, h2, h3, _, h5, h6, h7, _⟩ := update_ok_spec r r' u t h
  exact ⟨h1, h2, h3, h5, h6, h7, fun x => (update_rotate_free r u t x).trans h⟩

/-- C2 witness: the everything-set payload `updAll` against the stored
scenario-A row, at clock tick 5. -/
theorem c2_immutable_identity_witness :
    rowA.update updAll 5 = .ok rowAUpd ∧
    (rowAUpd.id = rowA.id ∧ rowAUpd.created = rowA.created ∧
      rowAUpd.workspace_id = rowA.workspace_id ∧ rowAUpd.flavor = rowA.flavor ∧
      rowAUpd.plugin_type = rowA.plugin_type ∧
      rowAUpd.plugin_subtype = rowA.plugin_subtype ∧
      ∀ x, rowA.update { updAll with rotate_secret := x } 5 = .ok rowAUpd) :=
  ⟨rfl, c2_immutable_identity rowA rowAUpd updAll 5 rfl⟩

/-- C4: `update` writes only the explicitly-set fields.  Frame: every row
field whose update field was left unset keeps its prior value, and the
identity/immutable columns keep theirs even when set — the sole exception is
`updated`, which always becomes the clock reading.  Effect: the
explicitly-set plain fields (`name`, `description`, and the scope fields,
which land on the relationship attributes) are written verbatim. -/
theorem c4_field_mask_frame (r r' : EventSourceSchema) (u : EventSourceUpdate)
    (t : Nat) (h : r.update u t = .ok r') :
    (u.user = none → r'.user = r.user) ∧
    (u.workspace = none → r'.workspace = r.workspace) ∧
    (u.name = none → r'.name = r.name) ∧
    (u.description = none → r'.description = r.description) ∧
    (u.configuration = none → r'.configuration = r.configuration) ∧
    r'.id = r.id ∧ r'.created = r.created ∧ r'.workspace_id = r.workspace_id ∧
    r'.user_id = r.user_id ∧ r'.flavor = r.flavor ∧
    r'.plugin_type = r.plugin_type ∧ r'.plugin_subtype = r.plugin_subtype ∧
    r'.updated = t ∧
    (∀ v, u.name = some v → r'.name = v) ∧
    (∀ v, u.description = some v → r'.description = v) ∧
    (∀ v, u.user = some v → r'.user = strayUser v) ∧
    (∀ v, u.workspace = some v → r'.workspace = strayWorkspace v) := by
  obtain ⟨h1, h2, h3, h4, h5, h6, h7, h8, h9, h10, h11, h12, h13, _⟩ :=
    update_ok_spec r r' u t h
  refine ⟨?_, ?_, ?_, ?_, h13, h1, h2, h3, h4, h5, h6, h7, h8, ?_, ?_, ?_, ?_⟩
  · intro hv; rw [h11, hv]
  · intro hv; rw [h12, hv]
  · intro hv; rw [h9, hv]; rfl
  · intro hv; rw [h10, hv]; rfl
  · intro v hv; rw [h9, hv]; rfl
  · intro v hv; rw [h10, hv]; rfl
  · intro v hv; rw [h11, hv]
  · intro v hv; rw [h12, hv]

/-- C4 witness: a rename-only payload against the stored scenario-A row. -/
theorem c4_field_mask_frame_witness :
    rowA.update updName 5 = .ok rowARen ∧
    ((updName.user = none → rowARen.user = rowA.user) ∧
      (updName.workspace = none → rowARen.workspace = rowA.workspace) ∧
      (updName.name = none → rowARen.name = rowA.name) ∧
      (updName.description = none → rowARen.description = rowA.description) ∧
      (updName.configuration = none → rowARen.configuration = rowA.configuration) ∧
      rowARen.id = rowA.id ∧ rowARen.created = rowA.created ∧
      rowARen.workspace_id = rowA.workspace_id ∧ rowARen.user_id = rowA.user_id ∧
      rowARen.flavor = rowA.flavor ∧ rowARen.plugin_type = rowA.plugin_type ∧
      rowARen.plugin_subtype = rowA.plugin_subtype ∧ rowARen.updated = 5 ∧
      (∀ v, updName.name = some v → rowARen.name = v) ∧
      (∀ v, updName.description = some v → rowARen.description = v) ∧
      (∀ v, updName.user = some v → rowARen.user = strayUser v) ∧
      (∀ v, updName.workspace = some v → rowARen.workspace = strayWorkspace v)) :=
  ⟨rfl, c4_field_mask_frame rowA rowARen updName 5 rfl⟩

/-- C5: along any chain of successful `update` calls whose clock readings
strictly increase (the model of successive `datetime.utcnow()` readings),
`updated` is non-decreasing overall and strictly increases as soon as one
call happened.  Moreover every single successful call sets `updated` to its
clock reading unconditionally, and an update that sets nothing but
`rotate_secret` (or nothing at all, taking `x := none`) still succeeds and
still advances the timestamp. -/
theorem c5_timestamp_monotonicity (r r' : EventSourceSchema)
    (us : List (EventSourceUpdate × Nat))
    (hclock : List.Chain (fun a b => a < b) r.updated (us.map Prod.snd))
    (h : updateSeq r us = .ok r') :
    (r.updated ≤ r'.updated ∧ (us ≠ [] → r.updated < r'.updated)) ∧
    (∀ s u t2 s', EventSourceSchema.update s u t2 = .ok s' → s'.updated = t2) ∧
    (∀ s t2 x, EventSourceSchema.update s { rotate_secret := x } t2
        = .ok { s with updated := t2 }) := by
  refine ⟨updateSeq_updated_mono us r r' hclock h, ?_, fun s t2 x => rfl⟩
  intro s u t2 s' hs
  exact (update_ok_spec s s' u t2 hs).2.2.2.2.2.2.2.1

/-- Two updates of the scenario-A row: a rename at tick 1, then an empty
payload at tick 2. -/
def usSeq : List (EventSourceUpdate × Nat) := [(updName, 1), ({}, 2)]

def rowASeq : EventSourceSchema := { rowA with name := "renamed", updated := 2 }

/-- C5 witness: the two-call chain at ticks 1 and 2 on the scenario-A row. -/
theorem c5_timestamp_monotonicity_witness :
    (List.Chain (fun a b => a < b) rowA.updated (usSeq.map Prod.snd) ∧
      updateSeq rowA usSeq = .ok rowASeq) ∧
    rowA.updated ≤ rowASeq.updated ∧
    (usSeq ≠ [] → rowA.updated < rowASeq.updated) :=
  have hchain : List.Chain (fun a b => a < b) rowA.updated (usSeq.map Prod.snd) :=
    .cons (by decide) (.cons (by decide) .nil)
  ⟨⟨hchain, rfl⟩, (c5_timestamp_monotonicity rowA rowASeq usSeq hchain rfl).1⟩

/-- A configuration carrying a value only the structure-aware creation
serializer can encode: a `uuid.UUID`, rendered by `pydantic_encoder` as its
string form. -/
def cfgExt : ConfigMap :=
  [("source_id".data, .jext "f47ac10b-58cc-4372-a567-0e02b2c3d479".data)]

def updExt : EventSourceUpdate := { configuration := some cfgExt }

/-- C8 counterexample: the update path does NOT go through the same
structure-aware serializer as creation.  A configuration holding a
`uuid.UUID` value is accepted at creation — `from_request` encodes it through
`json.dumps(..., default=pydantic_encoder)` and the stored blob decodes to
the UUID's string form — but an update explicitly setting the very same
configuration raises `TypeError` from the plain `json.dumps`, refuting the
claim that every configuration accepted at creation is encodable on the
update path. -/
theorem c8_counterexample :
    decodeConfig (EventSourceSchema.from_request
        { reqA with configuration := cfgExt } 1 0).configuration
      = .ok (.jobj [("source_id".data,
          .jstr "f47ac10b-58cc-4372-a567-0e02b2c3d479".data)]) ∧
    rowA.update updExt 5 = .error .encoding :=
  ⟨rfl, rfl⟩

/-- C8 (amended): the update path re-encodes with a plain `json.dumps` — no
`default=pydantic_encoder` fallback — so agreement with the creation encoder
holds exactly for configurations of JSON-native values: for those, an update
explicitly setting the configuration succeeds and writes the byte-identical
blob `from_request` would store for the same mapping (hence equal decodes);
configurations carrying pydantic-only values are rejected on update (see the
counterexample). -/
theorem c8_plain_reencode_agreement (r : EventSourceSchema)
    (u : EventSourceUpdate) (cfg : ConfigMap) (t : Nat)
    (hset : u.configuration = some cfg)
    (hne : noExt (.jobj cfg) = true) :
    ∃ r', r.update u t = .ok r' ∧
      r'.configuration = encodeConfigCreate cfg ∧
      ∀ req fid t2, req.configuration = cfg →
        (EventSourceSchema.from_request req fid t2).configuration
          = r'.configuration := by
  have hdp : dumpsPlain (.jobj cfg) = .ok (serVal (.jobj cfg)) := by
    simp [dumpsPlain, hne]
  refine ⟨_, update_config_some r u cfg t _ hset hdp, rfl, ?_⟩
  intro req fid t2 hc
  simp [EventSourceSchema.from_request, encodeConfigCreate, hc]

def updCfgA : EventSourceUpdate := { configuration := some cfgA }

/-- C8 witness: re-encoding the scenario-A configuration on the update path. -/
theorem c8_plain_reencode_agreement_witness :
    (updCfgA.configuration = some cfgA ∧ noExt (.jobj cfgA) = true) ∧
    ∃ r', rowA.update updCfgA 5 = .ok r' ∧
      r'.configuration = encodeConfigCreate cfgA ∧
      ∀ req fid t2, req.configuration = cfgA →
        (EventSourceSchema.from_request req fid t2).configuration
          = r'.configuration :=
  ⟨⟨rfl, rfl⟩, c8_plain_reencode_agreement rowA updCfgA cfgA 5 rfl rfl⟩

/-! ### Characterizing `to_model` -/

/-- `to_model` on success paths, forward direction: the unhydrated call
always succeeds once the user attribute is readable, and the hydrated call is
decided by the workspace attribute and the decode of the blob. -/
theorem to_model_ok (r : EventSourceSchema) (um : Option UserResponse)
    (hum : (r.user = .noneRel ∧ um = none) ∨
           (∃ u, r.user = .loaded u ∧ um = some u.to_model)) :
    r.to_model false = .ok ({
      id := r.id, name := r.name,
      body := some {
        created := r.created, updated := r.updated, user := um,
        flavor := r.flavor, plugin_type := r.plugin_type,
        plugin_subtype := r.plugin_subtype },
      metadata := none }, 0, 0) ∧
    ∀ w, r.workspace = .loaded w →
      (∀ e, decodeConfig r.configuration = .error e →
        r.to_model true = .error (.corruption e)) ∧
      (∀ fields, decodeConfig r.configuration = .ok (.jobj fields) →
        r.to_model true = .ok ({
          id := r.id, name := r.name,
          body := some {
            created := r.created, updated := r.updated, user := um,
            flavor := r.flavor, plugin_type := r.plugin_type,
            plugin_subtype := r.plugin_subtype },
          metadata := some {
            workspace := w.to_model,
            description := r.description, configuration := fields } }, 1, 1)) := by
  obtain ⟨hu, rfl⟩ | ⟨u, hu, rfl⟩ := hum <;>
    exact ⟨by rw [EventSourceSchema.to_model, hu]; rfl,
      fun w hw =>
        ⟨fun e he => by rw [EventSourceSchema.to_model, hu, hw, he]; rfl,
         fun fields hf => by rw [EventSourceSchema.to_model, hu, hw, hf]; rfl⟩⟩

/-- The continuation of `to_model` after the user attribute resolved to
`um`, inverted: any success carries the fixed body, and carries metadata and
the (1, 1) counters exactly in hydrated mode. -/
theorem to_model_cases_aux (r : EventSourceSchema) (hydrate : Bool)
    (resp : EventSourceResponse) (cnt : Nat × Nat) (um : Option UserResponse)
    (h : (if hydrate = true then
        (match (match r.workspace with
          | WorkspaceRel.loaded w => Except.ok w.to_model
          | _ => Except.error PyError.attrError) with
        | .error e => (Except.error e : Except PyError (EventSourceResponse × Nat × Nat))
        | .ok wsModel =>
          match decodeConfig r.configuration with
          | .error e => Except.error (PyError.corruption e)
          | .ok cfgVal =>
            match cfgVal with
            | .jobj fields =>
              Except.ok ({
                id := r.id, name := r.name,
                body := some {
                  created := r.created, updated := r.updated,
                  user := um, flavor := r.flavor, plugin_type := r.plugin_type,
                  plugin_subtype := r.plugin_subtype },
                metadata := some {
                  workspace := wsModel,
                  description := r.description,
                  configuration := fields } }, 1, 1)
            | _ => Except.error PyError.validationError)
      else
        Except.ok ({
          id := r.id, name := r.name,
          body := some {
            created := r.created, updated := r.updated,
            user := um, flavor := r.flavor, plugin_type := r.plugin_type,
            plugin_subtype := r.plugin_subtype },
          metadata := none }, 0, 0)) = .ok (resp, cnt)) :
    resp.id = r.id ∧ resp.name = r.name ∧
    resp.body = some {
      created := r.created, updated := r.updated, user := um,
      flavor := r.flavor, plugin_type := r.plugin_type,
      plugin_subtype := r.plugin_subtype } ∧
    (hydrate = false → resp.metadata = none ∧ cnt = (0, 0)) ∧
    (hydrate = true → resp.metadata.isSome = true ∧ cnt = (1, 1)) := by
  cases hydrate with
  | false =>
    have h2 : (Except.ok ({
        id := r.id, name := r.name,
        body := some {
          created := r.created, updated := r.updated, user := um,
          flavor := r.flavor, plugin_type := r.plugin_type,
          plugin_subtype := r.plugin_subtype },
        metadata := none }, ((0 : Nat), (0 : Nat)))
        : Except PyError (EventSourceResponse × Nat × Nat)) = .ok (resp, cnt) := h
    simp only [Except.ok.injEq, Prod.mk.injEq] at h2
    obtain ⟨h3, h4⟩ := h2
    subst h3
    exact ⟨rfl, rfl, rfl, fun _ => ⟨rfl, h4.symm⟩, fun hcon => absurd hcon (by decide)⟩
  | true =>
    have h2 : (match (match r.workspace with
        | WorkspaceRel.loaded w => Except.ok w.to_model
        | _ => Except.error PyError.attrError) with
      | .error e => (Except.error e : Except PyError (EventSourceResponse × Nat × Nat))
      | .ok wsModel =>
        match decodeConfig r.configuration with
        | .error e => Except.error (PyError.corruption e)
        | .ok cfgVal =>
          match cfgVal with
          | .jobj fields =>
            Except.ok ({
              id := r.id, name := r.name,
              body := some {
                created := r.created, updated := r.updated,
                user := um, flavor := r.flavor, plugin_type := r.plugin_type,
                plugin_subtype := r.plugin_subtype },
              metadata := some {
                workspace := wsModel,
                description := r.description,
                configuration := fields } }, 1, 1)
          | _ => Except.error PyError.validationError) = .ok (resp, cnt) := h
    clear h
    split at h2
    · cases h2
    · split at h2
      · cases h2
      · split at h2
        · simp only [Except.ok.injEq, Prod.mk.injEq] at h2
          obtain ⟨h3, h4⟩ := h2
          subst h3
          exact ⟨rfl, rfl, rfl, fun hcon => absurd hcon (by decide),
                 fun _ => ⟨rfl, h4.symm⟩⟩
        · cases h2

/-- `to_model` inverted: whatever a successful call returned, its body is the
fully resolved one and its metadata/counters are decided by the mode. -/
theorem to_model_cases (r : EventSourceSchema) (hydrate : Bool)
    (resp : EventSourceResponse) (cnt : Nat × Nat)
    (h : r.to_model hydrate = .ok (resp, cnt)) :
    resp.id = r.id ∧ resp.name = r.name ∧
    resp.body = some {
      created := r.created, updated := r.updated,
      user := match r.user with | .loaded u => some u.to_model | _ => none,
      flavor := r.flavor, plugin_type := r.plugin_type,
      plugin_subtype := r.plugin_subtype } ∧
    (hydrate = false → resp.metadata = none ∧ cnt = (0, 0)) ∧
    (hydrate = true → resp.metadata.isSome = true ∧ cnt = (1, 1)) := by
  rw [EventSourceSchema.to_model] at h
  cases hu2 : r.user with
  | noneRel =>
    rw [hu2] at h
    exact to_model_cases_aux r hydrate resp cnt none h
  | loaded u =>
    rw [hu2] at h
    exact to_model_cases_aux r hydrate resp cnt (some u.to_model) h
  | strayId i =>
    rw [hu2] at h
    exact Except.noConfusion (show (Except.error PyError.attrError
        : Except PyError (EventSourceResponse × Nat × Nat)) = .ok (resp, cnt) from h)

/-- C1: for every configuration map of JSON-compatible values (no extension
values, distinct keys at every nesting level — the shape every Python dict
has), the blob `from_request` stores decodes back, inside
`to_model(hydrate=True)` of the stored row completed with a loaded workspace,
to exactly the original mapping — here even order-preserved, which implies
the required value equality. -/
theorem c1_configuration_roundtrip (req : EventSourceRequest) (fid : UUID)
    (t : Nat) (w : WorkspaceSchema)
    (hne : noExt (.jobj req.configuration) = true)
    (hwf : wfKeys (.jobj req.configuration) = true) :
    decodeConfig (EventSourceSchema.from_request req fid t).configuration
        = .ok (.jobj req.configuration) ∧
    ({ EventSourceSchema.from_request req fid t with workspace := .loaded w }
        : EventSourceSchema).to_model true
      = .ok ({
          id := fid, name := req.name,
          body := some {
            created := t, updated := t, user := none,
            flavor := req.flavor, plugin_type := req.plugin_type,
            plugin_subtype := req.plugin_subtype },
          metadata := some {
            workspace := w.to_model,
            description := req.description,
            configuration := req.configuration } }, 1, 1) := by
  have hd : decodeConfig (encodeConfigCreate req.configuration)
      = .ok (.jobj req.configuration) :=
    decodeConfig_encodeConfigCreate req.configuration hne hwf
  refine ⟨hd, ?_⟩
  exact ((to_model_ok ({ EventSourceSchema.from_request req fid t with
      workspace := .loaded w }) none (Or.inl ⟨rfl, rfl⟩)).2 w rfl).2
    req.configuration hd

/-- C1 witness: the scenario-A request, stored and re-read. -/
theorem c1_configuration_roundtrip_witness :
    (noExt (.jobj reqA.configuration) = true ∧
      wfKeys (.jobj reqA.configuration) = true) ∧
    decodeConfig (EventSourceSchema.from_request reqA 1 0).configuration
      = .ok (.jobj reqA.configuration) :=
  ⟨⟨rfl, rfl⟩, (c1_configuration_roundtrip reqA 1 0 wsW rfl rfl).1⟩

/-- C3: the hydration split.  `to_model(hydrate=False)` always succeeds for a
readable user attribute and returns the body present, the metadata absent —
not zero-valued — and both ghost counters at zero; its result does not even
depend on the blob or the workspace attribute.  Any successful
`to_model(hydrate=True)` carries metadata and performed exactly one decode
and one workspace resolution.  Metadata is present iff hydrate was true. -/
theorem c3_hydration_split (r : EventSourceSchema) :
    (UserOk r → ∃ b, r.to_model false
        = .ok ({
            id := r.id, name := r.name, body := some b,
            metadata := none }, 0, 0)) ∧
    (∀ blob ws, ({ r with configuration := blob, workspace := ws }
        : EventSourceSchema).to_model false = r.to_model false) ∧
    (∀ resp d wres, r.to_model true = .ok (resp, d, wres) →
      resp.metadata.isSome = true ∧ d = 1 ∧ wres = 1) ∧
    (∀ hydrate resp d wres, r.to_model hydrate = .ok (resp, d, wres) →
      (resp.metadata.isSome = true ↔ hydrate = true)) := by
  refine ⟨?_, ?_, ?_, ?_⟩
  · rintro (hu | ⟨u, hu⟩)
    · exact ⟨{
        created := r.created, updated := r.updated, user := none,
        flavor := r.flavor, plugin_type := r.plugin_type,
        plugin_subtype := r.plugin_subtype },
        (to_model_ok r none (Or.inl ⟨hu, rfl⟩)).1⟩
    · exact ⟨{
        created := r.created, updated := r.updated, user := some u.to_model,
        flavor := r.flavor, plugin_type := r.plugin_type,
        plugin_subtype := r.plugin_subtype },
        (to_model_ok r (some u.to_model) (Or.inr ⟨u, hu, rfl⟩)).1⟩
  · intro blob ws
    rfl
  · intro resp d wres h
    obtain ⟨-, -, -, -, h5⟩ := to_model_cases r true resp (d, wres) h
    obtain ⟨hm, hc⟩ := h5 rfl
    exact ⟨hm, congrArg Prod.fst hc, congrArg Prod.snd hc⟩
  · intro hydrate resp d wres h
    obtain ⟨-, -, -, h4, h5⟩ := to_model_cases r hydrate resp (d, wres) h
    cases hydrate
    · obtain ⟨hm, -⟩ := h4 rfl
      rw [hm]
      simp
    · obtain ⟨hm, -⟩ := h5 rfl
      simp [hm]

def mdA : EventSourceResponseMetadata :=
  { workspace := { id := 7, name := "ws" }, description := "d",
    configuration := cfgA }

/-- The hydrated response for the stored scenario-A row. -/
def respA : EventSourceResponse :=
  { id := 1, name := "es",
    body := some { created := 0, updated := 0,
                   user := some { id := 3, name := "alice" },
                   flavor := "github", plugin_type := "event_source",
                   plugin_subtype := "webhook" },
    metadata := some mdA }

/-- C3 witness: both hydration modes on the stored scenario-A row. -/
theorem c3_hydration_split_witness :
    (UserOk rowA ∧ rowA.to_model true = .ok (respA, 1, 1)) ∧
    (∃ b, rowA.to_model false
        = .ok ({
            id := rowA.id, name := rowA.name, body := some b,
            metadata := none }, 0, 0)) ∧
    (respA.metadata.isSome = true ∧ (1 : Nat) = 1 ∧ (1 : Nat) = 1) :=
  have hu : UserOk rowA := Or.inr ⟨userU, rfl⟩
  have ht : rowA.to_model true = .ok (respA, 1, 1) := rfl
  ⟨⟨hu, ht⟩, (c3_hydration_split rowA).1 hu,
    (c3_hydration_split rowA).2.2.1 respA 1 1 ht⟩

/-- C7: whenever the stored blob is not a validly formed encoding — the
decode expression fails, be it at the base64 envelope, the UTF-8 layer or the
JSON text — `to_model(hydrate=True)` fails with that classified
`CorruptionError`, and in particular never succeeds with an empty or default
map in the response. -/
theorem c7_corrupt_blob_error (r : EventSourceSchema) (e : CorruptionError)
    (hu : UserOk r) (hw : ∃ w, r.workspace = .loaded w)
    (hbad : decodeConfig r.configuration = .error e) :
    r.to_model true = .error (.corruption e) ∧
    ∀ out, r.to_model true ≠ .ok out := by
  obtain ⟨w, hwl⟩ := hw
  have hmain : r.to_model true = .error (.corruption e) := by
    rcases hu with hu | ⟨u, hu⟩
    · exact ((to_model_ok r none (Or.inl ⟨hu, rfl⟩)).2 w hwl).1 e hbad
    · exact ((to_model_ok r (some u.to_model) (Or.inr ⟨u, hu, rfl⟩)).2 w hwl).1 e hbad
  exact ⟨hmain, fun out hok => by rw [hmain] at hok; cases hok⟩

/-- A row whose blob was truncated to the two bytes "YQ": the base64 payload
filter keeps both characters, but their count breaks the 4-character quantum
grammar, the Python `binascii.Error: Incorrect padding` case. -/
def rowBad : EventSourceSchema := { rowA with configuration := [89, 81] }

/-- C7 witness: the truncated blob fails with the base64 corruption error. -/
theorem c7_corrupt_blob_error_witness :
    (UserOk rowBad ∧ (∃ w, rowBad.workspace = .loaded w) ∧
      decodeConfig rowBad.configuration = .error .base64Error) ∧
    rowBad.to_model true = .error (.corruption .base64Error) :=
  ⟨⟨Or.inr ⟨userU, rfl⟩, ⟨wsW, rfl⟩, rfl⟩,
    (c7_corrupt_blob_error rowBad .base64Error (Or.inr ⟨userU, rfl⟩)
      ⟨wsW, rfl⟩ rfl).1⟩

/-- C10: `to_model` resolves the owner into the response body on every call.
When the row is consistently loaded, `Body.user` is the full converted user
model exactly when `user_id` is set and `None` otherwise — already with
`hydrate=False`, whose metadata stays absent, so owner resolution is never
deferred to the metadata section. -/
theorem c10_owner_into_body (r : EventSourceSchema) (hL : Loaded r) :
    (∃ resp, r.to_model false = .ok (resp, 0, 0) ∧ resp.metadata = none ∧
      ∃ b, resp.body = some b ∧
        ((r.user_id = none ∧ b.user = none) ∨
          (∃ i u, r.user_id = some i ∧ r.user = .loaded u ∧
            b.user = some u.to_model ∧ u.id = i))) ∧
    (∀ hydrate resp cnt, r.to_model hydrate = .ok (resp, cnt) →
      ∃ b, resp.body = some b ∧
        ((r.user_id = none ∧ b.user = none) ∨
          (∃ i u, r.user_id = some i ∧ r.user = .loaded u ∧
            b.user = some u.to_model ∧ u.id = i))) := by
  obtain ⟨-, huser⟩ := hL
  have hbody : ∀ hydrate resp cnt, r.to_model hydrate = .ok (resp, cnt) →
      ∃ b, resp.body = some b ∧
        ((r.user_id = none ∧ b.user = none) ∨
          (∃ i u, r.user_id = some i ∧ r.user = .loaded u ∧
            b.user = some u.to_model ∧ u.id = i)) := by
    intro hydrate resp cnt h
    obtain ⟨-, -, h3, -, -⟩ := to_model_cases r hydrate resp cnt h
    refine ⟨_, h3, ?_⟩
    rcases huser with ⟨hid, hu⟩ | ⟨i, u, hid, hu, hui⟩
    · exact Or.inl ⟨hid, by rw [hu]⟩
    · exact Or.inr ⟨i, u, hid, hu, by rw [hu], hui⟩
  refine ⟨?_, hbody⟩
  rcases huser with ⟨hid, hu⟩ | ⟨i, u, hid, hu, hui⟩
  · refine ⟨_, (to_model_ok r none (Or.inl ⟨hu, rfl⟩)).1, rfl, ?_⟩
    exact hbody false _ _ (to_model_ok r none (Or.inl ⟨hu, rfl⟩)).1
  · refine ⟨_, (to_model_ok r (some u.to_model) (Or.inr ⟨u, hu, rfl⟩)).1, rfl, ?_⟩
    exact hbody false _ _ (to_model_ok r (some u.to_model) (Or.inr ⟨u, hu, rfl⟩)).1

/-- C10 witness: the loaded scenario-A row, whose owner is set. -/
theorem c10_owner_into_body_witness :
    Loaded rowA ∧
    (∃ resp, rowA.to_model false = .ok (resp, 0, 0) ∧ resp.metadata = none ∧
      ∃ b, resp.body = some b ∧
        ((rowA.user_id = none ∧ b.user = none) ∨
          (∃ i u, rowA.user_id = some i ∧ rowA.user = .loaded u ∧
            b.user = some u.to_model ∧ u.id = i))) :=
  have hL : Loaded rowA :=
    ⟨⟨wsW, rfl, rfl⟩, Or.inr ⟨3, userU, rfl, rfl, rfl⟩⟩
  ⟨hL, (c10_owner_into_body rowA hL).1⟩

/-- C9: hydration happens at most once per response object.  On an
already-hydrated response a metadata access answers from the object with zero
store fetches; on an unhydrated one the first `description` access fetches
exactly once, memoizes, and the second access on the memoized receiver
fetches zero times. -/
theorem c9_hydration_memoized (self : EventSourceResponse) (store : Store) :
    (∀ md, self.metadata = some md →
      self.get_metadata store = .ok (md, self, 0) ∧
      self.description store = .ok (md.description, self, 0)) ∧
    (self.metadata = none →
      ∀ d s1 n, self.description store = .ok (d, s1, n) →
        n = 1 ∧ s1.description store = .ok (d, s1, 0)) := by
  constructor
  · intro md hmd
    have h1 : self.get_metadata store = .ok (md, self, 0) := by
      rw [EventSourceResponse.get_metadata, hmd]
    refine ⟨h1, ?_⟩
    rw [EventSourceResponse.description, h1]
  · intro hmd d s1 n h
    rw [EventSourceResponse.description, EventSourceResponse.get_metadata, hmd,
        EventSourceResponse.get_hydrated_version] at h
    cases hs : store self.id with
    | none => rw [hs] at h; cases h
    | some hyd =>
      rw [hs] at h
      have h3 : (match (match hyd.metadata with
          | some md => (Except.ok (md, { self with metadata := some md }, 1)
              : Except PyError (EventSourceResponseMetadata ×
                  EventSourceResponse × Nat))
          | none => Except.error PyError.validationError) with
        | .ok (md2, s2, n2) =>
          (Except.ok (md2.description, s2, n2)
              : Except PyError (String × EventSourceResponse × Nat))
        | .error e => Except.error e) = .ok (d, s1, n) := h
      clear h
      cases hm2 : hyd.metadata with
      | none =>
        rw [hm2] at h3
        cases h3
      | some md =>
        rw [hm2] at h3
        have h4 : (Except.ok (md.description, { self with metadata := some md },
            (1 : Nat)) : Except PyError (String × EventSourceResponse × Nat))
            = .ok (d, s1, n) := h3
        simp only [Except.ok.injEq, Prod.mk.injEq] at h4
        obtain ⟨hd2, hs2, hn⟩ := h4
        subst hd2
        subst hs2
        subst hn
        refine ⟨rfl, ?_⟩
        rw [EventSourceResponse.description, EventSourceResponse.get_metadata]

/-- The unhydrated twin of `respA`. -/
def respU : EventSourceResponse := { respA with metadata := none }

/-- The store handle holding the hydrated scenario-A response under id 1. -/
def storeA : Store := fun i => if i = 1 then some respA else none

/-- C9 witness: description access on the hydrated and on the unhydrated
scenario-A response. -/
theorem c9_hydration_memoized_witness :
    (respA.metadata = some mdA ∧
      respA.get_metadata storeA = .ok (mdA, respA, 0) ∧
      respA.description storeA = .ok (mdA.description, respA, 0)) ∧
    (respU.metadata = none ∧ respU.description storeA = .ok ("d", respA, 1) ∧
      (1 : Nat) = 1 ∧ respA.description storeA = .ok ("d", respA, 0)) :=
  have hfirst := (c9_hydration_memoized respA storeA).1 mdA rfl
  have hsecond := (c9_hydration_memoized respU storeA).2 rfl "d" respA 1 rfl
  ⟨⟨rfl, hfirst.1, hfirst.2⟩, ⟨rfl, rfl, hsecond.1, hsecond.2⟩⟩

end ZenML
